import Mathlib

/-!
Verification development for the mermaid-to-drawio conversion core
(`mmd2drawio.py`).  The Python module is shallowly embedded: strings are
lists of characters, Python dicts (which preserve insertion order) are
association lists, the regex searches of the source are hand-compiled
backtracking matchers with the same preference order (greedy quantifiers,
leftmost alternatives, leftmost search position), and the `while` loop of
the level computation is modelled with explicit fuel that provably
suffices.
-/

namespace MmdDrawio

/-- Python strings, embedded as lists of characters. -/
abbrev Str := List Char

/-- Characters stripped by Python `str.strip()` with no argument. -/
def isPySpace (c : Char) : Bool :=
  c = ' ' || c = '\t' || c = '\n' || c = '\r' || c = Char.ofNat 11 || c = Char.ofNat 12

/-- Python `str.strip()`: drop whitespace from both ends. -/
def pyStrip (s : Str) : Str :=
  ((s.dropWhile isPySpace).reverse.dropWhile isPySpace).reverse

/-- Python `str.rstrip(chars)`: drop characters of the set from the right. -/
def pyRStripSet (s : Str) (cs : List Char) : Str :=
  (s.reverse.dropWhile (fun c => cs.contains c)).reverse

/-- Python `text.split('\n')`. -/
def splitLines : Str → List Str
  | [] => [[]]
  | c :: r =>
    let rest := splitLines r
    if c = '\n' then [] :: rest
    else
      match rest with
      | h :: t => (c :: h) :: t
      | [] => [[c]]

/-- Does `s` begin with `pat`?  (Python `str.startswith`.) -/
def strBegins : Str → Str → Bool
  | _, [] => true
  | [], _ :: _ => false
  | c :: r, p :: q => c = p && strBegins r q

/-- Does `s` end with `pat`?  (Python `str.endswith`.) -/
def strEnds (s pat : Str) : Bool :=
  strBegins s.reverse pat.reverse

/-- Does `s` contain `pat` as a substring?  (Python `pat in s`.) -/
def strContains : Str → Str → Bool
  | [], pat => strBegins [] pat
  | s@(_ :: r), pat => strBegins s pat || strContains r pat

/-- Fuel-driven core of `replaceAll`; the fuel `s.length` always suffices
because each step consumes at least one character of the input. -/
def replaceAllF (pat rep : Str) : Nat → Str → Str
  | _, [] => []
  | 0, s => s
  | f + 1, s@(c :: r) =>
    if pat ≠ [] ∧ strBegins s pat then rep ++ replaceAllF pat rep f (s.drop pat.length)
    else c :: replaceAllF pat rep f r

/-- Python `s.replace(pat, rep)`: replace every non-overlapping occurrence,
left to right. -/
def replaceAll (s pat rep : Str) : Str :=
  replaceAllF pat rep s.length s

/-- Python `s.split(sep, 1)`: split at the first occurrence of `sep`,
`none` when `sep` does not occur. -/
def splitOnce (sep : Str) : Str → Option (Str × Str)
  | [] => none
  | s@(c :: r) =>
    if strBegins s sep then some ([], s.drop sep.length)
    else (splitOnce sep r).map fun p => (c :: p.1, p.2)

/-- Decimal digit character. -/
def digitChar (n : Nat) : Char := Char.ofNat (48 + n)

/-- Fuel-driven accumulator loop of the decimal rendering (structural, so
that concrete id strings evaluate inside the kernel). -/
def natStrAux : Nat → Nat → Str → Str
  | 0, _, acc => acc
  | f + 1, n, acc =>
    let acc2 := digitChar (n % 10) :: acc
    if n < 10 then acc2 else natStrAux f (n / 10) acc2

/-- Decimal rendering of a natural number, as Python `str(n)` produces it. -/
def natStr (n : Nat) : Str := natStrAux (n + 1) n []

/-- Generated node ids: `"node" + str(n)` (`generate_node_id`). -/
def mkNodeId (n : Nat) : Str := "node".data ++ natStr n

/-- Generated edge ids: `"edge" + str(n)` (`generate_edge_id`). -/
def mkEdgeId (n : Nat) : Str := "edge".data ++ natStr n

/-- Page ids in combined output: `"diagram" + str(n)`. -/
def mkDiagramId (n : Nat) : Str := "diagram".data ++ natStr n

/-! ## Association lists standing for Python dicts (insertion order kept) -/

/-- Lookup in an insertion-ordered association list (`d[k]` / `k in d`). -/
def alGet {α : Type} : List (Str × α) → Str → Option α
  | [], _ => none
  | (k, v) :: r, k' => if k = k' then some v else alGet r k'

/-- `d[k] = v`: overwrite in place when the key exists, else append. -/
def alSet {α : Type} : List (Str × α) → Str → α → List (Str × α)
  | [], k, v => [(k, v)]
  | (k0, v0) :: r, k, v =>
    if k0 = k then (k0, v) :: r else (k0, v0) :: alSet r k v

/-! ## Style classifier: `parse_node_shape` -/

/-- Base style shared by all flowchart node shapes. -/
def baseNodeStyle : Str :=
  "whiteSpace=wrap;html=1;fillColor=#dae8fc;strokeColor=#6c8ebf;".data

/-- Style given to a node registered without a shape token. -/
def bareNodeStyle : Str := "rounded=1;whiteSpace=wrap;html=1;".data

/-- `parse_node_shape`: strip the delimiters of a node-shape token and
return the label together with the Draw.io style, delimiters tested in the
source's order (longer patterns first), defaulting to a rectangle. -/
def parse_node_shape (t : Str) : Str × Str :=
  if strBegins t "[[".data ∧ strEnds t "]]".data then
    ((t.drop 2).dropLast.dropLast, "rounded=1;strokeWidth=2;".data ++ baseNodeStyle)
  else if strBegins t "\x7b\x7b".data ∧ strEnds t "\x7d\x7d".data then
    ((t.drop 2).dropLast.dropLast,
      "shape=hexagon;perimeter=hexagonPerimeter2;fillColor=#fff2cc;strokeColor=#d6b656;".data ++ baseNodeStyle)
  else if strBegins t "((".data ∧ strEnds t "))".data then
    ((t.drop 2).dropLast.dropLast,
      "ellipse;aspect=fixed;fillColor=#f8cecc;strokeColor=#b85450;".data ++ baseNodeStyle)
  else if strBegins t "[(".data ∧ strEnds t ")]".data then
    ((t.drop 2).dropLast.dropLast,
      "shape=cylinder3;fillColor=#e1d5e7;strokeColor=#9673a6;".data ++ baseNodeStyle)
  else if strBegins t ">".data ∧ strEnds t "]".data then
    ((t.drop 1).dropLast,
      "shape=parallelogram;perimeter=parallelogramPerimeter;fillColor=#d5e8d4;strokeColor=#82b366;".data ++ baseNodeStyle)
  else if strBegins t "[".data ∧ strEnds t "]".data then
    ((t.drop 1).dropLast, "rounded=1;".data ++ baseNodeStyle)
  else if strBegins t "(".data ∧ strEnds t ")".data then
    ((t.drop 1).dropLast,
      "ellipse;fillColor=#ffe6cc;strokeColor=#d79b00;".data ++ baseNodeStyle)
  else if strBegins t "\x7b".data ∧ strEnds t "\x7d".data then
    ((t.drop 1).dropLast, "rhombus;fillColor=#fff2cc;strokeColor=#d6b656;".data ++ baseNodeStyle)
  else
    (t, "rounded=1;".data ++ baseNodeStyle)

/-- Does `t` match one of the eight delimiter tests of `parse_node_shape`? -/
def delimMatch (t : Str) : Bool :=
  (strBegins t "[[".data && strEnds t "]]".data) ||
  (strBegins t "\x7b\x7b".data && strEnds t "\x7d\x7d".data) ||
  (strBegins t "((".data && strEnds t "))".data) ||
  (strBegins t "[(".data && strEnds t ")]".data) ||
  (strBegins t ">".data && strEnds t "]".data) ||
  (strBegins t "[".data && strEnds t "]".data) ||
  (strBegins t "(".data && strEnds t ")".data) ||
  (strBegins t "\x7b".data && strEnds t "\x7d".data)

example : parse_node_shape "[Start]".data = ("Start".data, "rounded=1;".data ++ baseNodeStyle) := by decide
example : (parse_node_shape "\x7bDecide\x7d".data).1 = "Decide".data := by decide
example : (parse_node_shape "(End)".data).1 = "End".data := by decide
example : (parse_node_shape "[(a)]".data).1 = "a".data := by decide
example : (parse_node_shape "\x7b(a)\x7d".data).1 = "(a)".data := by decide
example : (parse_node_shape "(a)".data).1 = "a".data := by decide

/-! ## Backtracking regex matchers

The source classifies lines with `re.search`.  Each pattern is compiled by
hand into a candidate enumerator: a list of (capture, remaining input)
pairs in exactly the preference order of Python's backtracking engine
(greedy quantifiers longest first, alternatives left to right), and
`re.search` is the first successful candidate at the leftmost position. -/

/-- Candidates of a partial match, in backtracking preference order. -/
abbrev Cands (α : Type) := List (α × Str)

def cbind {α β : Type} (cs : Cands α) (f : α → Str → Cands β) : Cands β :=
  cs.bind fun p => f p.1 p.2

def cpure {α : Type} (a : α) (s : Str) : Cands α := [(a, s)]

/-- A literal string in the pattern. -/
def litC (pat : Str) (s : Str) : Cands Unit :=
  if strBegins s pat then [((), s.drop pat.length)] else []

/-- A single character of a class. -/
def oneCls (p : Char → Bool) : Str → Cands Char
  | [] => []
  | c :: r => if p c then [(c, r)] else []

/-- Greedy character-class repetition with bounds, longest candidate first
(the pattern form `[class]{lo,hi}`). -/
def repGreedy (p : Char → Bool) (lo hi : Nat) (s : Str) : Cands Str :=
  let k := min (s.takeWhile p).length hi
  ((List.range (k + 1)).reverse.filter (fun n => lo ≤ n)).map
    fun n => (s.take n, s.drop n)

/-- `[class]+`, greedy. -/
def plusGreedy (p : Char → Bool) (s : Str) : Cands Str := repGreedy p 1 s.length s

/-- `[class]*`, greedy. -/
def starGreedy (p : Char → Bool) (s : Str) : Cands Str := repGreedy p 0 s.length s

/-- `(...)?`, greedy: try the group first, then skip it. -/
def optC {α : Type} (f : Str → Cands α) (s : Str) : Cands (Option α) :=
  (f s).map (fun pr => (some pr.1, pr.2)) ++ [(none, s)]

/-- The class `[A-Za-z0-9_]` of the patterns' name groups. -/
def isNameChar (c : Char) : Bool := c.isAlpha || c.isDigit || c = '_'

/-- The class `[-.=]` of flowchart arrow bodies. -/
def isArrowDash (c : Char) : Bool := c = '-' || c = '.' || c = '='

/-- One delimiter-pair alternative of the shape group, e.g. `\[\[[^\]]+\]\]`;
the capture is the full matched token, delimiters included. -/
def delimAlt (opn clo : Str) (p : Char → Bool) (s : Str) : Cands Str :=
  cbind (litC opn s) fun _ r1 =>
  cbind (plusGreedy p r1) fun inner r2 =>
  cbind (litC clo r2) fun _ r3 =>
  cpure (opn ++ inner ++ clo) r3

/-- The shape group of the arrow pattern's *source* side (and of the
standalone pattern): eight alternatives in the source's order; the
cylinder alternative is `\[\([^\]]+\)\]`. -/
def shapeAltsFrom (s : Str) : Cands Str :=
  delimAlt "[[".data "]]".data (fun c => c ≠ ']') s ++
  delimAlt "\x7b\x7b".data "\x7d\x7d".data (fun c => c ≠ '\x7d') s ++
  delimAlt "((".data "))".data (fun c => c ≠ ')') s ++
  delimAlt "[(".data ")]".data (fun c => c ≠ ']') s ++
  delimAlt ">".data "]".data (fun c => c ≠ ']') s ++
  delimAlt "[".data "]".data (fun c => c ≠ ']') s ++
  delimAlt "(".data ")".data (fun c => c ≠ ')') s ++
  delimAlt "\x7b".data "\x7d".data (fun c => c ≠ '\x7d') s

/-- The shape group of the arrow pattern's *target* side: identical except
that its cylinder alternative is `\[\([^\)]+\)\]`. -/
def shapeAltsTo (s : Str) : Cands Str :=
  delimAlt "[[".data "]]".data (fun c => c ≠ ']') s ++
  delimAlt "\x7b\x7b".data "\x7d\x7d".data (fun c => c ≠ '\x7d') s ++
  delimAlt "((".data "))".data (fun c => c ≠ ')') s ++
  delimAlt "[(".data ")]".data (fun c => c ≠ ')') s ++
  delimAlt ">".data "]".data (fun c => c ≠ ']') s ++
  delimAlt "[".data "]".data (fun c => c ≠ ']') s ++
  delimAlt "(".data ")".data (fun c => c ≠ ')') s ++
  delimAlt "\x7b".data "\x7d".data (fun c => c ≠ '\x7d') s

/-- Arrow group `([-.=]{1,3}>?[ox]?|[-.=]{1,3})`. -/
def arrowCands (s : Str) : Cands Str :=
  (cbind (repGreedy isArrowDash 1 3 s) fun d r1 =>
   cbind (optC (oneCls (fun c => c = '>')) r1) fun g r2 =>
   cbind (optC (oneCls (fun c => c = 'o' || c = 'x')) r2) fun ox r3 =>
   cpure (d ++ g.elim [] (fun c => [c]) ++ ox.elim [] (fun c => [c])) r3) ++
  repGreedy isArrowDash 1 3 s

/-- Trailing label group `(?:\s*\|\s*([^|]+)\s*\|)`; captures group 6. -/
def labelTailCands (s : Str) : Cands Str :=
  cbind (starGreedy isPySpace s) fun _ r1 =>
  cbind (litC "|".data r1) fun _ r2 =>
  cbind (starGreedy isPySpace r2) fun _ r3 =>
  cbind (plusGreedy (fun c => c ≠ '|') r3) fun lbl r4 =>
  cbind (starGreedy isPySpace r4) fun _ r5 =>
  cbind (litC "|".data r5) fun _ r6 =>
  cpure lbl r6

/-- The six captured groups of the flowchart arrow pattern. -/
structure ArrowMatch where
  g1 : Str
  g2 : Option Str
  g3 : Str
  g4 : Str
  g5 : Option Str
  g6 : Option Str
deriving DecidableEq

/-- Match the arrow pattern anchored at the start of `s`. -/
def matchArrowAt (s : Str) : Option ArrowMatch :=
  ((cbind (plusGreedy isNameChar s) fun n1 r1 =>
    cbind (optC shapeAltsFrom r1) fun sh1 r2 =>
    cbind (starGreedy isPySpace r2) fun _ r3 =>
    cbind (arrowCands r3) fun ar r4 =>
    cbind (starGreedy isPySpace r4) fun _ r5 =>
    cbind (plusGreedy isNameChar r5) fun n2 r6 =>
    cbind (optC shapeAltsTo r6) fun sh2 r7 =>
    cbind (optC labelTailCands r7) fun lb r8 =>
    cpure (ArrowMatch.mk n1 sh1 ar n2 sh2 lb) r8).head?).map (fun p => p.1)

/-- `re.search` of the arrow pattern: leftmost matching position. -/
def searchArrow : Str → Option ArrowMatch
  | [] => none
  | s@(_ :: r) =>
    match matchArrowAt s with
    | some m => some m
    | none => searchArrow r

/-- Match the standalone-node pattern (name plus mandatory shape token)
anchored at the start of `s`. -/
def matchStandaloneAt (s : Str) : Option (Str × Str) :=
  ((cbind (plusGreedy isNameChar s) fun n1 r1 =>
    cbind (shapeAltsFrom r1) fun sh r2 =>
    cpure (n1, sh) r2).head?).map (fun p => p.1)

/-- `re.search` of the standalone-node pattern. -/
def searchStandalone : Str → Option (Str × Str)
  | [] => none
  | s@(_ :: r) =>
    match matchStandaloneAt s with
    | some m => some m
    | none => searchStandalone r

/-- Match the edge-label pattern
`([-.=]{1,3}>?[ox]?|[-.=]{1,3})\|([^|]+)\|` at the start of `s`;
yields ((arrow part, label), rest after the match). -/
def matchELAt (s : Str) : Option ((Str × Str) × Str) :=
  (cbind (arrowCands s) fun ar r1 =>
   cbind (litC "|".data r1) fun _ r2 =>
   cbind (plusGreedy (fun c => c ≠ '|') r2) fun lbl r3 =>
   cbind (litC "|".data r3) fun _ r4 =>
   cpure (ar, lbl) r4).head?

/-- `re.search` of the edge-label pattern: the first match's two groups. -/
def searchEL : Str → Option (Str × Str)
  | [] => none
  | s@(_ :: r) =>
    match matchELAt s with
    | some m => some m.1
    | none => searchEL r

/-- Fuel-driven core of `subEL`; every match consumes at least one
character, so the fuel `s.length` always suffices. -/
def subELF (rep : Str) : Nat → Str → Str
  | _, [] => []
  | 0, s => s
  | f + 1, s@(c :: r) =>
    match matchELAt s with
    | some m => rep ++ subELF rep f m.2
    | none => c :: subELF rep f r

/-- `re.sub` of the edge-label pattern: replace every occurrence by `rep`
(the source passes the first match's arrow part). -/
def subEL (rep s : Str) : Str := subELF rep s.length s

/-! ## Flowchart extractor: `parse_mermaid_flowchart` -/

/-- A flowchart node record (`{'id': …, 'label': …, 'style': …}`). -/
structure NodeRec where
  id : Str
  label : Str
  style : Str
deriving DecidableEq

/-- An edge record (`{'id', 'from', 'to', 'label', 'style'}`); `src`/`tgt`
stand for the source's `from`/`to` keys. -/
structure EdgeRec where
  id : Str
  src : Str
  tgt : Str
  label : Str
  style : Str
deriving DecidableEq

/-- `parse_arrow_type`: Draw.io style of a flowchart arrow token. -/
def parse_arrow_type (a : Str) : Str :=
  let s0 := "edgeStyle=orthogonalEdgeStyle;rounded=0;orthogonalLoop=1;jettySize=auto;html=1;strokeColor=#6c8ebf;".data
  let s1 := if strContains a ".-".data || strContains a "..".data then
      s0 ++ "dashed=1;dashPattern=5 5;".data else s0
  let s2 := if strContains a "==".data then s1 ++ "strokeWidth=3;".data
      else s1 ++ "strokeWidth=2;".data
  if strEnds a "->".data then s2 ++ "endArrow=classic;endFill=1;".data
  else if strEnds a "-".data then s2 ++ "endArrow=none;".data
  else if strEnds a "o".data then s2 ++ "endArrow=oval;endFill=0;".data
  else if strEnds a "x".data then s2 ++ "endArrow=cross;endFill=1;".data
  else s2 ++ "endArrow=classic;endFill=1;".data

/-- State threaded through the flowchart extractor's line loop: the node
dict, the edge list, the two id counters and the flow direction. -/
structure FlowSt where
  nodes : List (Str × NodeRec)
  edges : List EdgeRec
  nodeCtr : Nat
  edgeCtr : Nat
  dir : Str
deriving DecidableEq

/-- The extractor's starting state (counters as `reset_counters` sets them). -/
def flowInit : FlowSt := ⟨[], [], 1, 1, "TD".data⟩

/-- Register one endpoint of an arrow line: a new name is inserted (with
its shape's label/style, or its own name as label); an existing name is
upgraded with the shape's label/style only while its label still equals
the bare name. -/
def registerFlowNode (st : FlowSt) (name : Str) (shape : Option Str) : FlowSt :=
  match alGet st.nodes name with
  | none =>
    let nrec := match shape with
      | some sh =>
        let ls := parse_node_shape sh
        NodeRec.mk (mkNodeId st.nodeCtr) ls.1 ls.2
      | none => NodeRec.mk (mkNodeId st.nodeCtr) name bareNodeStyle
    { st with nodes := st.nodes ++ [(name, nrec)], nodeCtr := st.nodeCtr + 1 }
  | some r =>
    match shape with
    | some sh =>
      if r.label = name then
        let ls := parse_node_shape sh
        { st with nodes := alSet st.nodes name (NodeRec.mk r.id ls.1 ls.2) }
      else st
    | none => st

/-- One iteration of the flowchart extractor's line loop. -/
def flowStep (st : FlowSt) (raw : Str) : FlowSt :=
  let line := pyStrip raw
  if strBegins line "graph".data || strBegins line "flowchart".data then
    { st with dir :=
        if strContains line "LR".data then "LR".data
        else if strContains line "RL".data then "RL".data
        else if strContains line "BT".data then "BT".data
        else "TD".data }
  else if line = [] then st
  else
    let pre := match searchEL line with
      | some arLbl => (subEL arLbl.1 line, arLbl.2)
      | none => (line, ([] : Str))
    match searchArrow pre.1 with
    | some m =>
      let edgeLabel := if pre.2 ≠ [] then pre.2 else m.g6.getD []
      let st1 := registerFlowNode st m.g1 m.g2
      let st2 := registerFlowNode st1 m.g4 m.g5
      let fromId := match alGet st2.nodes m.g1 with | some r => r.id | none => []
      let toId := match alGet st2.nodes m.g4 with | some r => r.id | none => []
      { st2 with
        edges := st2.edges ++
          [EdgeRec.mk (mkEdgeId st2.edgeCtr) fromId toId (pyStrip edgeLabel) (parse_arrow_type m.g3)],
        edgeCtr := st2.edgeCtr + 1 }
    | none =>
      match searchStandalone pre.1 with
      | some ns =>
        match alGet st.nodes ns.1 with
        | none =>
          let ls := parse_node_shape ns.2
          { st with nodes := st.nodes ++ [(ns.1, NodeRec.mk (mkNodeId st.nodeCtr) ls.1 ls.2)],
                    nodeCtr := st.nodeCtr + 1 }
        | some _ => st
      | none => st

/-- `parse_mermaid_flowchart`, started from freshly reset counters. -/
def parse_mermaid_flowchart (src : Str) : FlowSt :=
  (splitLines (pyStrip src)).foldl flowStep flowInit

/-! ## Level computation: `_calculate_node_levels`

Kahn's algorithm, levelled: the whole zero-in-degree frontier is one
level.  The Python `while queue:` loop is modelled with fuel
`#nodes + 1`, which always suffices: every iteration starts from a
non-empty queue and every node is enqueued at most once.  In-degrees are
`Int` because Python lets them go below zero for nodes decremented after
they were already dequeued. -/

/-- State of the topological-sort loop. -/
structure KahnSt where
  levels : List (Str × Nat)
  inDeg : List (Str × Int)
  queue : List Str
  curLevel : Nat
deriving DecidableEq

/-- `graph[u].append(v)`.  (On extractor output `u` is always a key;
Python would raise `KeyError` otherwise, and the model is only used
where the key exists.) -/
def adjAppend : List (Str × List Str) → Str → Str → List (Str × List Str)
  | [], _, _ => []
  | (k, vs) :: r, u, v =>
    if k = u then (k, vs ++ [v]) :: r else (k, vs) :: adjAppend r u v

/-- `in_degree[v] += 1` (key always present on extractor output). -/
def degIncr : List (Str × Int) → Str → List (Str × Int)
  | [], _ => []
  | (k, d) :: r, v => if k = v then (k, d + 1) :: r else (k, d) :: degIncr r v

/-- `in_degree[v] -= 1` (key always present on extractor output). -/
def degDecr : List (Str × Int) → Str → List (Str × Int)
  | [], _ => []
  | (k, d) :: r, v => if k = v then (k, d - 1) :: r else (k, d) :: degDecr r v

/-- The inner neighbour loop: decrement each successor's in-degree and
append it to the next frontier exactly when the decrement reaches zero. -/
def processNbrs : List (Str × Int) × List Str → List Str → List (Str × Int) × List Str
  | acc, [] => acc
  | (deg, nq), v :: rest =>
    let deg2 := degDecr deg v
    let nq2 := if alGet deg2 v = some 0 then nq ++ [v] else nq
    processNbrs (deg2, nq2) rest

/-- The body of the frontier loop for one node of the current frontier:
`levels[node_id] = current_level`, then the neighbour loop. -/
def kahnNodeStep (graph : List (Str × List Str)) (L : Nat)
    (acc : List (Str × Nat) × List (Str × Int) × List Str) (n : Str) :
    List (Str × Nat) × List (Str × Int) × List Str :=
  let lv := alSet acc.1 n L
  let dn := processNbrs (acc.2.1, acc.2.2) ((alGet graph n).getD [])
  (lv, dn.1, dn.2)

/-- One iteration of the `while queue:` loop: level every node of the
current frontier, collect the next frontier, advance the level number. -/
def kahnIter (graph : List (Str × List Str)) (st : KahnSt) : KahnSt :=
  let z := st.queue.foldl (kahnNodeStep graph st.curLevel) (st.levels, st.inDeg, [])
  ⟨z.1, z.2.1, z.2.2, st.curLevel + 1⟩

/-- The `while queue:` loop, fuel-driven. -/
def kahnLoop (graph : List (Str × List Str)) : Nat → KahnSt → KahnSt
  | 0, st => st
  | f + 1, st => if st.queue = [] then st else kahnLoop graph f (kahnIter graph st)

/-- `{node_data['id']: [] for node_data in nodes.values()}`. -/
def buildAdj (ids : List Str) : List (Str × List Str) :=
  ids.foldl (fun g i => alSet g i []) []

/-- `{node_data['id']: 0 for node_data in nodes.values()}`. -/
def buildDeg (ids : List Str) : List (Str × Int) :=
  ids.foldl (fun g i => alSet g i 0) []

/-- `_calculate_node_levels` up to the end of the `while` loop. -/
def calcLevelsCore (nodes : List NodeRec) (edges : List EdgeRec) : KahnSt :=
  let ids := nodes.map (fun n => n.id)
  let graph := edges.foldl (fun g e => adjAppend g e.src e.tgt) (buildAdj ids)
  let deg := edges.foldl (fun d e => degIncr d e.tgt) (buildDeg ids)
  let queue := deg.filterMap (fun p => if p.2 = 0 then some p.1 else none)
  kahnLoop graph (ids.length + 1) ⟨[], deg, queue, 0⟩

/-- `_calculate_node_levels`: the loop, then the dump of every node still
unlevelled (cycle participants and unreachable nodes) to the level number
reached when the loop stopped. -/
def calculate_node_levels (nodes : List NodeRec) (edges : List EdgeRec) : List (Str × Nat) :=
  let st := calcLevelsCore nodes edges
  st.inDeg.foldl
    (fun lv p => if (alGet lv p.1).isNone then alSet lv p.1 st.curLevel else lv)
    st.levels

/-! ## Sequence extractor: `parse_mermaid_sequence` -/

/-- `parse_sequence_arrow_style`. -/
def parse_sequence_arrow_style (a : Str) : Str :=
  let b := "edgeStyle=orthogonalEdgeStyle;rounded=0;orthogonalLoop=1;jettySize=auto;html=1;".data
  if a = "->".data then b ++ "endArrow=classic;".data
  else if a = "->>".data then b ++ "endArrow=open;dashed=1;".data
  else if strContains a ".->".data then b ++ "endArrow=classic;dashed=1;".data
  else if a = "+".data then b ++ "endArrow=classic;strokeWidth=2;".data
  else if a = "-".data then b ++ "endArrow=classic;strokeWidth=2;".data
  else if strContains a "-->".data then b ++ "endArrow=classic;dashed=1;".data
  else if strEnds a "x".data then b ++ "endArrow=cross;".data
  else b ++ "endArrow=classic;".data

/-- Arrow group `(->>?|\.->|-->|->|-x|\+|-)` of the message pattern. -/
def seqArrowCands (s : Str) : Cands Str :=
  (cbind (litC "->".data s) fun _ r1 =>
   cbind (optC (oneCls (fun c => c = '>')) r1) fun g r2 =>
   cpure ("->".data ++ g.elim [] (fun c => [c])) r2) ++
  (cbind (litC ".->".data s) fun _ r => cpure ".->".data r) ++
  (cbind (litC "-->".data s) fun _ r => cpure "-->".data r) ++
  (cbind (litC "->".data s) fun _ r => cpure "->".data r) ++
  (cbind (litC "-x".data s) fun _ r => cpure "-x".data r) ++
  (cbind (litC "+".data s) fun _ r => cpure "+".data r) ++
  (cbind (litC "-".data s) fun _ r => cpure "-".data r)

/-- The four captured groups of the message pattern. -/
structure SeqMatch where
  g1 : Str
  g2 : Str
  g3 : Str
  g4 : Str
deriving DecidableEq

/-- Match the message pattern
`([A-Za-z0-9_]+)\s*(->>?|\.->|-->|->|-x|\+|-)\s*([A-Za-z0-9_]+)\s*:\s*(.+)`
anchored at the start of `s`. -/
def matchSeqMsgAt (s : Str) : Option SeqMatch :=
  ((cbind (plusGreedy isNameChar s) fun n1 r1 =>
    cbind (starGreedy isPySpace r1) fun _ r2 =>
    cbind (seqArrowCands r2) fun ar r3 =>
    cbind (starGreedy isPySpace r3) fun _ r4 =>
    cbind (plusGreedy isNameChar r4) fun n2 r5 =>
    cbind (starGreedy isPySpace r5) fun _ r6 =>
    cbind (litC ":".data r6) fun _ r7 =>
    cbind (starGreedy isPySpace r7) fun _ r8 =>
    cbind (plusGreedy (fun c => c ≠ '\n') r8) fun txt r9 =>
    cpure (SeqMatch.mk n1 ar n2 txt) r9).head?).map (fun p => p.1)

/-- `re.search` of the message pattern. -/
def searchSeqMsg : Str → Option SeqMatch
  | [] => none
  | s@(_ :: r) =>
    match matchSeqMsgAt s with
    | some m => some m
    | none => searchSeqMsg r

/-- `any(arrow in line for arrow in ['->', '->>', '-.->',  '-->', '-x', '+', '-'])`. -/
def seqArrowGuard (line : Str) : Bool :=
  strContains line "->".data || strContains line "->>".data ||
  strContains line "-.->".data || strContains line "-->".data ||
  strContains line "-x".data || strContains line "+".data || strContains line "-".data

/-- A sequence participant / state-diagram state record. -/
structure PartRec where
  id : Str
  label : Str
deriving DecidableEq

/-- State of the sequence extractor's line loop. -/
structure SeqSt where
  parts : List (Str × PartRec)
  msgs : List EdgeRec
  nodeCtr : Nat
  edgeCtr : Nat
deriving DecidableEq

def seqInit : SeqSt := ⟨[], [], 1, 1⟩

/-- Strip the keywords out of a participant declaration as the source does:
`line.replace('participant', '').replace('actor', '').strip()`. -/
def seqPartName (s : Str) : Str :=
  pyStrip (replaceAll (replaceAll s "participant".data []) "actor".data [])

/-- One iteration of the sequence extractor's line loop.  The `Note`,
`loop`, `alt`, `opt` branches of the source are no-ops and so coincide
with the final catch-all. -/
def seqStep (st : SeqSt) (raw : Str) : SeqSt :=
  let line := pyStrip raw
  if line = [] || strBegins line "sequenceDiagram".data then st
  else if strBegins line "participant".data || strBegins line "actor".data then
    let nl := match splitOnce " as ".data line with
      | some ab => (seqPartName ab.1, pyStrip ab.2)
      | none => (seqPartName line, seqPartName line)
    match alGet st.parts nl.1 with
    | none =>
      { st with parts := st.parts ++ [(nl.1, PartRec.mk (mkNodeId st.nodeCtr) nl.2)],
                nodeCtr := st.nodeCtr + 1 }
    | some _ => st
  else if seqArrowGuard line then
    match searchSeqMsg line with
    | some m =>
      let st1 := match alGet st.parts m.g1 with
        | none =>
          { st with parts := st.parts ++ [(m.g1, PartRec.mk (mkNodeId st.nodeCtr) m.g1)],
                    nodeCtr := st.nodeCtr + 1 }
        | some _ => st
      let st2 := match alGet st1.parts m.g3 with
        | none =>
          { st1 with parts := st1.parts ++ [(m.g3, PartRec.mk (mkNodeId st1.nodeCtr) m.g3)],
                     nodeCtr := st1.nodeCtr + 1 }
        | some _ => st1
      let fromId := match alGet st2.parts m.g1 with | some r => r.id | none => []
      let toId := match alGet st2.parts m.g3 with | some r => r.id | none => []
      { st2 with
        msgs := st2.msgs ++
          [EdgeRec.mk (mkEdgeId st2.edgeCtr) fromId toId (pyStrip m.g4)
            (parse_sequence_arrow_style m.g2)],
        edgeCtr := st2.edgeCtr + 1 }
    | none => st
  else st

/-- `parse_mermaid_sequence`, from freshly reset counters. -/
def parse_mermaid_sequence (src : Str) : SeqSt :=
  (splitLines (pyStrip src)).foldl seqStep seqInit

/-! ## ER extractor: `parse_mermaid_er` -/

/-- `parse_er_relationship_style`. -/
def parse_er_relationship_style (t : Str) : Str :=
  let b := "edgeStyle=orthogonalEdgeStyle;rounded=0;orthogonalLoop=1;jettySize=auto;html=1;".data
  let b1 := if strContains t "..".data then b ++ "dashed=1;".data else b
  let b2 :=
    if strBegins t "||".data then b1 ++ "startArrow=ERone;".data
    else if strBegins t "\x7d|".data then b1 ++ "startArrow=ERmany;".data
    else if strBegins t "|o".data then b1 ++ "startArrow=ERzeroToOne;".data
    else if strBegins t "\x7do".data then b1 ++ "startArrow=ERzeroToMany;".data
    else b1
  if strEnds t "||".data then b2 ++ "endArrow=ERone;".data
  else if strEnds t "|\x7b".data then b2 ++ "endArrow=ERmany;".data
  else if strEnds t "o|".data then b2 ++ "endArrow=ERzeroToOne;".data
  else if strEnds t "o\x7b".data then b2 ++ "endArrow=ERzeroToMany;".data
  else b2

/-- Cardinality group `([\|\}][|\}o][-\.]{2,3}[o\|\}][\{\|])`. -/
def erCardCands (s : Str) : Cands Str :=
  cbind (oneCls (fun c => c = '|' || c = '\x7d') s) fun c1 r1 =>
  cbind (oneCls (fun c => c = '|' || c = '\x7d' || c = 'o') r1) fun c2 r2 =>
  cbind (repGreedy (fun c => c = '-' || c = '.') 2 3 r2) fun ds r3 =>
  cbind (oneCls (fun c => c = 'o' || c = '|' || c = '\x7d') r3) fun c3 r4 =>
  cbind (oneCls (fun c => c = '\x7b' || c = '|') r4) fun c4 r5 =>
  cpure ([c1, c2] ++ ds ++ [c3, c4]) r5

/-- The four captured groups of the relationship pattern. -/
structure ERMatch where
  g1 : Str
  g2 : Str
  g3 : Str
  g4 : Str
deriving DecidableEq

/-- Match the relationship pattern
`([A-Za-z0-9_]+)\s*([\|\}][|\}o][-\.]{2,3}[o\|\}][\{\|])\s*([A-Za-z0-9_]+)\s*:\s*(.+)`
anchored at the start of `s`. -/
def matchERRelAt (s : Str) : Option ERMatch :=
  ((cbind (plusGreedy isNameChar s) fun n1 r1 =>
    cbind (starGreedy isPySpace r1) fun _ r2 =>
    cbind (erCardCands r2) fun card r3 =>
    cbind (starGreedy isPySpace r3) fun _ r4 =>
    cbind (plusGreedy isNameChar r4) fun n2 r5 =>
    cbind (starGreedy isPySpace r5) fun _ r6 =>
    cbind (litC ":".data r6) fun _ r7 =>
    cbind (starGreedy isPySpace r7) fun _ r8 =>
    cbind (plusGreedy (fun c => c ≠ '\n') r8) fun txt r9 =>
    cpure (ERMatch.mk n1 card n2 txt) r9).head?).map (fun p => p.1)

/-- `re.search` of the relationship pattern. -/
def searchERRel : Str → Option ERMatch
  | [] => none
  | s@(_ :: r) =>
    match matchERRelAt s with
    | some m => some m
    | none => searchERRel r

/-- Guard of the entity-declaration branch: the line contains none of
`||--`, `}o--`, `||..o{`. -/
def erEntityGuard (line : Str) : Bool :=
  !(strContains line "||--".data || strContains line "\x7do--".data ||
    strContains line "||..o\x7b".data)

/-- Guard of the relationship branch: the line contains one of the six
trigger substrings. -/
def erRelGuard (line : Str) : Bool :=
  strContains line "||--".data || strContains line "\x7do--".data ||
  strContains line "||..".data || strContains line "\x7d|--".data ||
  strContains line "|o--".data || strContains line "o|--".data

/-- Bad-substring test of a candidate entity name:
`any(char in entity_name for char in [':', '||', '--', '}o', '{'])`. -/
def erBadName (n : Str) : Bool :=
  strContains n ":".data || strContains n "||".data || strContains n "--".data ||
  strContains n "\x7do".data || strContains n "\x7b".data

/-- An ER entity record. -/
structure EntRec where
  id : Str
  label : Str
  attributes : List Str
deriving DecidableEq

/-- State of the ER extractor's line loop. -/
structure ERSt where
  ents : List (Str × EntRec)
  rels : List EdgeRec
  curEnt : Option Str
  inBlock : Bool
  nodeCtr : Nat
  edgeCtr : Nat
deriving DecidableEq

def erInit : ERSt := ⟨[], [], none, false, 1, 1⟩

/-- Append an attribute line to an entity's list. -/
def entAppendAttr (es : List (Str × EntRec)) (k : Str) (attr : Str) : List (Str × EntRec) :=
  match alGet es k with
  | some r => alSet es k (EntRec.mk r.id r.label (r.attributes ++ [attr]))
  | none => es

/-- One iteration of the ER extractor's line loop.  `current_entity` being
a non-empty registered name is the Python truthiness test of the
attribute branch. -/
def erStep (st : ERSt) (raw : Str) : ERSt :=
  let line := pyStrip raw
  if line = [] || strBegins line "erDiagram".data then st
  else if strEnds line "\x7b".data then
    let cur := pyStrip (pyRStripSet line [' ', '\x7b'])
    let st1 := match alGet st.ents cur with
      | none =>
        { st with ents := st.ents ++ [(cur, EntRec.mk (mkNodeId st.nodeCtr) cur [])],
                  nodeCtr := st.nodeCtr + 1 }
      | some _ => st
    { st1 with curEnt := some cur, inBlock := true }
  else if line = "\x7d".data then { st with inBlock := false, curEnt := none }
  else if st.inBlock &&
      (match st.curEnt with
       | some c => decide (c ≠ []) && (alGet st.ents c).isSome
       | none => false) then
    match st.curEnt with
    | some c => if line ≠ [] then { st with ents := entAppendAttr st.ents c line } else st
    | none => st
  else if !st.inBlock && decide (line ≠ []) && erEntityGuard line then
    if line ≠ [] ∧ erBadName line = false then
      let st1 := match alGet st.ents line with
        | none =>
          { st with ents := st.ents ++ [(line, EntRec.mk (mkNodeId st.nodeCtr) line [])],
                    nodeCtr := st.nodeCtr + 1 }
        | some _ => st
      { st1 with curEnt := some line }
    else st
  else if erRelGuard line then
    match searchERRel line with
    | some m =>
      let st1 := match alGet st.ents m.g1 with
        | none =>
          { st with ents := st.ents ++ [(m.g1, EntRec.mk (mkNodeId st.nodeCtr) m.g1 [])],
                    nodeCtr := st.nodeCtr + 1 }
        | some _ => st
      let st2 := match alGet st1.ents m.g3 with
        | none =>
          { st1 with ents := st1.ents ++ [(m.g3, EntRec.mk (mkNodeId st1.nodeCtr) m.g3 [])],
                     nodeCtr := st1.nodeCtr + 1 }
        | some _ => st1
      let fromId := match alGet st2.ents m.g1 with | some r => r.id | none => []
      let toId := match alGet st2.ents m.g3 with | some r => r.id | none => []
      { st2 with
        rels := st2.rels ++
          [EdgeRec.mk (mkEdgeId st2.edgeCtr) fromId toId m.g4
            (parse_er_relationship_style m.g2)],
        edgeCtr := st2.edgeCtr + 1 }
    | none => st
  else st

/-- `parse_mermaid_er`, from freshly reset counters. -/
def parse_mermaid_er (src : Str) : ERSt :=
  (splitLines (pyStrip src)).foldl erStep erInit

/-! ## State extractor: `parse_mermaid_state` -/

/-- One side group `(\[?\*?\]?[A-Za-z0-9_]*)` of the transition pattern. -/
def stateSideCands (s : Str) : Cands Str :=
  cbind (optC (oneCls (fun c => c = '[')) s) fun a r1 =>
  cbind (optC (oneCls (fun c => c = '*')) r1) fun b r2 =>
  cbind (optC (oneCls (fun c => c = ']')) r2) fun c r3 =>
  cbind (starGreedy isNameChar r3) fun nm r4 =>
  cpure (a.elim [] (fun x => [x]) ++ b.elim [] (fun x => [x]) ++
         c.elim [] (fun x => [x]) ++ nm) r4

/-- The three captured groups of the transition pattern. -/
structure StMatch where
  g1 : Str
  g2 : Str
  g3 : Option Str
deriving DecidableEq

/-- Match the transition pattern
`(\[?\*?\]?[A-Za-z0-9_]*)\s*-->\s*(\[?\*?\]?[A-Za-z0-9_]*)\s*(?::\s*(.+))?`
anchored at the start of `s`. -/
def matchStateAt (s : Str) : Option StMatch :=
  ((cbind (stateSideCands s) fun g1 r1 =>
    cbind (starGreedy isPySpace r1) fun _ r2 =>
    cbind (litC "-->".data r2) fun _ r3 =>
    cbind (starGreedy isPySpace r3) fun _ r4 =>
    cbind (stateSideCands r4) fun g2 r5 =>
    cbind (starGreedy isPySpace r5) fun _ r6 =>
    cbind (optC (fun t =>
      cbind (litC ":".data t) fun _ u1 =>
      cbind (starGreedy isPySpace u1) fun _ u2 =>
      cbind (plusGreedy (fun c => c ≠ '\n') u2) fun txt u3 =>
      cpure txt u3) r6) fun g3 r7 =>
    cpure (StMatch.mk g1 g2 g3) r7).head?).map (fun p => p.1)

/-- `re.search` of the transition pattern. -/
def searchState : Str → Option StMatch
  | [] => none
  | s@(_ :: r) =>
    match matchStateAt s with
    | some m => some m
    | none => searchState r

/-- State of the state-diagram extractor's line loop. -/
structure StateSt where
  sts : List (Str × PartRec)
  trans : List EdgeRec
  nodeCtr : Nat
  edgeCtr : Nat
deriving DecidableEq

def stateInit : StateSt := ⟨[], [], 1, 1⟩

/-- Sentinel renaming of the source side: `[*]` or `*` becomes `Start`. -/
def stateFromName (s : Str) : Str :=
  if s = "[*]".data then "Start".data else if s = "*".data then "Start".data else s

/-- Sentinel renaming of the target side: `[*]` or `*` becomes `End`. -/
def stateToName (s : Str) : Str :=
  if s = "[*]".data then "End".data else if s = "*".data then "End".data else s

/-- Display glyph of a state: a filled circle for `Start`, a hollow one
for `End`, the name otherwise. -/
def stateDisplay (s : Str) : Str :=
  if s = "Start".data then "●".data else if s = "End".data then "◉".data else s

/-- One iteration of the state extractor's line loop. -/
def stateStep (st : StateSt) (raw : Str) : StateSt :=
  let line := pyStrip raw
  if line = [] || strBegins line "stateDiagram".data then st
  else
    match searchState line with
    | some m =>
      let f1 := stateFromName (pyStrip m.g1)
      let t1 := stateToName (pyStrip m.g2)
      let lbl := match m.g3 with | some l => pyStrip l | none => []
      let st1 := match alGet st.sts f1 with
        | none =>
          { st with sts := st.sts ++ [(f1, PartRec.mk (mkNodeId st.nodeCtr) (stateDisplay f1))],
                    nodeCtr := st.nodeCtr + 1 }
        | some _ => st
      let st2 := match alGet st1.sts t1 with
        | none =>
          { st1 with sts := st1.sts ++ [(t1, PartRec.mk (mkNodeId st1.nodeCtr) (stateDisplay t1))],
                     nodeCtr := st1.nodeCtr + 1 }
        | some _ => st1
      let fromId := match alGet st2.sts f1 with | some r => r.id | none => []
      let toId := match alGet st2.sts t1 with | some r => r.id | none => []
      { st2 with
        trans := st2.trans ++ [EdgeRec.mk (mkEdgeId st2.edgeCtr) fromId toId lbl "solid".data],
        edgeCtr := st2.edgeCtr + 1 }
    | none => st

/-- `parse_mermaid_state`, from freshly reset counters. -/
def parse_mermaid_state (src : Str) : StateSt :=
  (splitLines (pyStrip src)).foldl stateStep stateInit

/-! ## Layout: `calculate_positions` and `_layout_by_levels` -/

/-- A node rectangle. -/
structure Pos where
  x : Int
  y : Int
  w : Int
  h : Int
deriving DecidableEq

/-- `math.ceil(math.sqrt(n))`, computed exactly (for the diagram sizes at
hand the float square root is exact enough that the two agree). -/
def ceilSqrt (n : Nat) : Nat :=
  if Nat.sqrt n * Nat.sqrt n = n then Nat.sqrt n else Nat.sqrt n + 1

/-- Sequence layout: one row, fixed spacing, first-seen order. -/
def calcPositionsSeq (ids : List Str) : List (Str × Pos) :=
  ids.enum.map (fun p => (p.2, Pos.mk (100 + (p.1 : Int) * 250) 80 180 80))

/-- ER layout: grid with `max(2, min(4, ceil(sqrt n)))` columns; the row
height grows with the attribute count. -/
def calcPositionsER (ents : List EntRec) : List (Str × Pos) :=
  let cols := max 2 (min 4 (ceilSqrt ents.length))
  ents.enum.map (fun p =>
    (p.2.id, Pos.mk (100 + ((p.1 % cols : Nat) : Int) * 300)
                    (100 + ((p.1 / cols : Nat) : Int) * 250) 220
                    (max 120 (50 + (p.2.attributes.length : Int) * 25))))

/-- State layout: grid with `min(4, max(2, n))` columns. -/
def calcPositionsState (ids : List Str) : List (Str × Pos) :=
  let cols := min 4 (max 2 ids.length)
  ids.enum.map (fun p =>
    (p.2, Pos.mk (100 + ((p.1 % cols : Nat) : Int) * 250)
                 (100 + ((p.1 / cols : Nat) : Int) * 180) 180 90))

/-- Largest level value of a level assignment. -/
def maxLevel (levels : List (Str × Nat)) : Nat :=
  levels.foldl (fun m p => max m p.2) 0

/-- The ids of one level, in the assignment's insertion order (the order
`level_groups` is built in). -/
def levelGroup (levels : List (Str × Nat)) (l : Nat) : List Str :=
  levels.filterMap (fun p => if p.2 = l then some p.1 else none)

/-- `_layout_by_levels`: rows stacked downward for TD/TB flow, columns
for every other direction; each row/column centred in a fixed canvas.
Iterating the levels `0, 1, …` in order is `sorted(level_groups.items())`
(levels absent from the assignment contribute nothing). -/
def layout_by_levels (levels : List (Str × Nat)) (dir : Str) : List (Str × Pos) :=
  if dir = "TD".data ∨ dir = "TB".data then
    ((List.range (maxLevel levels + 1)).map (fun l =>
      let g := levelGroup levels l
      let totalW : Int := ((g.length : Int) - 1) * 220
      let startX : Int := 100 + max 0 ((800 - totalW).fdiv 2)
      g.enum.map (fun p =>
        (p.2, Pos.mk (startX + (p.1 : Int) * 220) (80 + (l : Int) * 180) 180 80)))).join
  else
    ((List.range (maxLevel levels + 1)).map (fun l =>
      let g := levelGroup levels l
      let totalH : Int := ((g.length : Int) - 1) * 150
      let startY : Int := 100 + max 0 ((600 - totalH).fdiv 2)
      g.enum.map (fun p =>
        (p.2, Pos.mk (80 + (l : Int) * 220) (startY + (p.1 : Int) * 150) 180 80)))).join

/-- Flowchart layout: hierarchical when there are edges, grid fallback
otherwise. -/
def calcPositionsFlow (nodes : List NodeRec) (edges : List EdgeRec) (dir : Str) :
    List (Str × Pos) :=
  if edges ≠ [] then layout_by_levels (calculate_node_levels nodes edges) dir
  else
    let cols := max 2 (min 5 (ceilSqrt nodes.length))
    nodes.enum.map (fun p =>
      (p.2.id, Pos.mk (100 + ((p.1 % cols : Nat) : Int) * 280)
                      (100 + ((p.1 / cols : Nat) : Int) * 180) 200 100))

/-! ## Serializer: `convert_mermaid_to_drawio` and `convert_multiple_files` -/

/-- A vertex cell of the output tree. -/
structure VCell where
  id : Str
  value : Str
  style : Str
  x : Int
  y : Int
  w : Int
  h : Int
deriving DecidableEq

/-- An edge cell of the output tree. -/
structure ECell where
  id : Str
  value : Str
  style : Str
  source : Str
  target : Str
deriving DecidableEq

/-- A page (`diagram` element) of the output tree. -/
structure PageOut where
  id : Str
  name : Str
  vcells : List VCell
  ecells : List ECell
deriving DecidableEq

/-- Position lookup (`positions[node_id]`; always present for the node
ids the serializer iterates). -/
def posOf (ps : List (Str × Pos)) (i : Str) : Pos :=
  (alGet ps i).getD (Pos.mk 0 0 0 0)

/-- `'\n'.join` (a two-character backslash-n separator in the source). -/
def joinStr (sep : Str) : List Str → Str
  | [] => []
  | [x] => x
  | x :: r => x ++ sep ++ joinStr sep r

/-- An ER vertex label: the entity name, then the attribute lines joined
with the literal two-character separator `\n`. -/
def erLabel (e : EntRec) : Str :=
  if e.attributes ≠ [] then e.label ++ "\\n".data ++ joinStr "\\n".data e.attributes
  else e.label

/-- The swimlane style of ER entities. -/
def erEntityStyle : Str :=
  "swimlane;fontStyle=0;childLayout=stackLayout;horizontal=1;startSize=30;horizontalStack=0;resizeParent=1;resizeParentMax=0;resizeLast=0;collapsible=1;marginBottom=0;".data

/-- `convert_mermaid_to_drawio` together with the counter values the id
allocator holds afterwards: `reset_counters` runs first, the diagram kind
is detected by substring in the fixed order sequence → ER → state →
flowchart, the matching extractor runs, positions are computed and the
page is serialized (vertex cells in node insertion order, then edge
cells in discovery order). -/
def convert_mermaid_page (src name : Str) : PageOut × (Nat × Nat) :=
  if strContains src "sequenceDiagram".data then
    let st := parse_mermaid_sequence src
    let ps := calcPositionsSeq (st.parts.map (fun p => p.2.id))
    (PageOut.mk "diagram1".data name
      (st.parts.map (fun p =>
        let q := posOf ps p.2.id
        VCell.mk p.2.id p.2.label bareNodeStyle q.x q.y q.w q.h))
      (st.msgs.map (fun e => ECell.mk e.id e.label e.style e.src e.tgt)),
     (st.nodeCtr, st.edgeCtr))
  else if strContains src "erDiagram".data then
    let st := parse_mermaid_er src
    let ps := calcPositionsER (st.ents.map (fun p => p.2))
    (PageOut.mk "diagram1".data name
      (st.ents.map (fun p =>
        let q := posOf ps p.2.id
        VCell.mk p.2.id (erLabel p.2) erEntityStyle q.x q.y q.w q.h))
      (st.rels.map (fun e => ECell.mk e.id e.label e.style e.src e.tgt)),
     (st.nodeCtr, st.edgeCtr))
  else if strContains src "stateDiagram".data then
    let st := parse_mermaid_state src
    let ps := calcPositionsState (st.sts.map (fun p => p.2.id))
    (PageOut.mk "diagram1".data name
      (st.sts.map (fun p =>
        let q := posOf ps p.2.id
        VCell.mk p.2.id p.2.label bareNodeStyle q.x q.y q.w q.h))
      (st.trans.map (fun e => ECell.mk e.id e.label e.style e.src e.tgt)),
     (st.nodeCtr, st.edgeCtr))
  else
    let st := parse_mermaid_flowchart src
    let ps := calcPositionsFlow (st.nodes.map (fun p => p.2)) st.edges st.dir
    (PageOut.mk "diagram1".data name
      (st.nodes.map (fun p =>
        let q := posOf ps p.2.id
        VCell.mk p.2.id p.2.label p.2.style q.x q.y q.w q.h))
      (st.edges.map (fun e => ECell.mk e.id e.label e.style e.src e.tgt)),
     (st.nodeCtr, st.edgeCtr))

/-- The conversion as the stateful converter object runs it: the incoming
counter values are discarded by `reset_counters` at the top of
`convert_mermaid_to_drawio`. -/
def convert_with_state (ctrs : Nat × Nat) (src name : Str) : PageOut × (Nat × Nat) :=
  convert_mermaid_page src name

/-- `convert_multiple_files`: every file is converted (its conversion
resetting the shared counters), and the page ids are renumbered
`diagram1`, `diagram2`, … in input order. -/
def convert_multiple_files (files : List (Str × Str)) : List PageOut :=
  files.enum.map (fun p =>
    let page := (convert_mermaid_page p.2.2 p.2.1).1
    { page with id := mkDiagramId (p.1 + 1) })

/-! ## Concrete inputs of the scenario claims -/

/-- The round-trip flowchart source of the specification. -/
def roundSrc : Str := "graph TD\nA[Start] --> B\x7bDecide\x7d\nB -->|yes| C(End)".data

/-- Its extraction result. -/
def roundFlow : FlowSt := parse_mermaid_flowchart roundSrc

/-- The two-node mutual-reference cycle source. -/
def cycleSrc : Str := "graph TD\nA --> B\nB --> A".data

/-- Its extraction result and the inputs of the level computation. -/
def cycleFlow : FlowSt := parse_mermaid_flowchart cycleSrc

def cycleNodes : List NodeRec := cycleFlow.nodes.map (fun p => p.2)

def cycleIds : List Str := cycleNodes.map (fun n => n.id)

def cycleAdj : List (Str × List Str) :=
  cycleFlow.edges.foldl (fun g e => adjAppend g e.src e.tgt) (buildAdj cycleIds)

def cycleDeg : List (Str × Int) :=
  cycleFlow.edges.foldl (fun d e => degIncr d e.tgt) (buildDeg cycleIds)

/-- The loop state `_calculate_node_levels` starts from on the cycle:
both in-degrees are 1, so the initial frontier is empty. -/
def cycleInit : KahnSt :=
  ⟨[], cycleDeg, cycleDeg.filterMap (fun p => if p.2 = 0 then some p.1 else none), 0⟩

/-- A state in which node A has already been upgraded to a label that
differs from its bare name. -/
def upgradedFlowSt : FlowSt := parse_mermaid_flowchart "graph TD\nA[Start] --> B".data

/-- A's record in that state. -/
def upgradedARec : NodeRec :=
  ⟨"node1".data, "Start".data, "rounded=1;".data ++ baseNodeStyle⟩

/-- A recognized ER relationship line and the groups its pattern captures. -/
def oneZeroManyLine : Str := "USER ||--o\x7b ORDER : places".data

def oneZeroManyMatch : ERMatch :=
  ⟨"USER".data, "||--o\x7b".data, "ORDER".data, "places".data⟩

/-! ## Further concrete inputs and decoding helpers used by the claims -/

/-- The source of the C6 counterexample: the first shape-bearing
occurrence of A carries `[A]` (its stripped label equals the bare name),
the second carries `{X}`. -/
def overrideSrc : Str := "graph TD\nA[A] --> B\nA\x7bX\x7d --> B".data

/-- The source of the C7 counterexample: a relationship line with a
many-to-many cardinality the extractor's guards do not recognize. -/
def manyManySrc : Str := "erDiagram\nA \x7d|--|\x7b B : r".data

/-- Numeric value of a decimal digit character. -/
def charVal (c : Char) : Nat := c.toNat - 48

/-- Decimal value of a digit string; inverse of `natStr` on its image. -/
def digitsVal (s : Str) : Nat := s.foldl (fun a c => a * 10 + charVal c) 0

/-! ## Notions used to state and prove the level-computation claims -/

/-- Has `u` been assigned a level? -/
def leveled (lv : List (Str × Nat)) (u : Str) : Bool := (alGet lv u).isSome

/-- Number of edges into `u`. -/
def inCount (edges : List EdgeRec) (u : Str) : Nat :=
  edges.countP (fun e => decide (e.tgt = u))

/-- Number of edges into `u` whose source is already levelled. -/
def clCount (edges : List EdgeRec) (lv : List (Str × Nat)) (u : Str) : Nat :=
  edges.countP (fun e => decide (e.tgt = u) && leveled lv e.src)

/-- Successors of `u`, in edge-list order: the adjacency list the level
computation builds for `u`. -/
def outNbrs (edges : List EdgeRec) (u : Str) : List Str :=
  (edges.filter (fun e => decide (e.src = u))).map (fun e => e.tgt)

/-- The elements the inner neighbour loop appends to the next frontier. -/
def pnNews (d : List (Str × Int)) (vs : List Str) : List Str :=
  (processNbrs (d, []) vs).2

/-- The edge relation of an edge list. -/
def EdgeRel (edges : List EdgeRec) (u v : Str) : Prop :=
  ∃ e ∈ edges, e.src = u ∧ e.tgt = v

/-- An acyclic edge set: no node reaches itself through a non-empty path. -/
def AcyclicEdges (edges : List EdgeRec) : Prop :=
  ¬∃ u, Relation.TransGen (EdgeRel edges) u u

/-- How many of the ids have no level yet. -/
def unleveledCount (ids : List Str) (lv : List (Str × Nat)) : Nat :=
  ids.countP (fun u => (alGet lv u).isNone)

/-- The invariant of the `while queue:` loop of `_calculate_node_levels`. -/
structure KahnInv (ids : List Str) (edges : List EdgeRec) (st : KahnSt) : Prop where
  degKeys : st.inDeg.map Prod.fst = ids
  degVal : ∀ u ∈ ids,
    alGet st.inDeg u = some ((inCount edges u : Int) - (clCount edges st.levels u : Int))
  lvDom : ∀ u, (alGet st.levels u).isSome → u ∈ ids
  lvLt : ∀ u l, alGet st.levels u = some l → l < st.curLevel
  qNodup : st.queue.Nodup
  qSub : ∀ q ∈ st.queue, q ∈ ids
  qUnlv : ∀ q ∈ st.queue, alGet st.levels q = none
  qPreds : ∀ q ∈ st.queue, ∀ e ∈ edges, e.tgt = q → (alGet st.levels e.src).isSome
  lvPreds : ∀ u l, alGet st.levels u = some l → ∀ e ∈ edges, e.tgt = u →
    ∃ m, alGet st.levels e.src = some m ∧ m < l
  waiting : ∀ u ∈ ids, alGet st.levels u = none → u ∉ st.queue →
    ∃ e ∈ edges, e.tgt = u ∧ alGet st.levels e.src = none

/-- The invariant of the frontier fold inside one loop iteration: the
frontier `queue0` splits as `done ++ todo`, the levels dict `lv` is `lv0`
with the done part added at level `L`, the in-degrees track the levelled
sources and `nq` is the next frontier collected so far. -/
structure KahnMid (ids : List Str) (edges : List EdgeRec) (lv0 : List (Str × Nat))
    (queue0 : List Str) (L : Nat) (done todo : List Str)
    (lv : List (Str × Nat)) (deg : List (Str × Int)) (nq : List Str) : Prop where
  split : queue0 = done ++ todo
  lvChar : ∀ u, alGet lv u = if u ∈ done then some L else alGet lv0 u
  degKeys : deg.map Prod.fst = ids
  degVal : ∀ u ∈ ids,
    alGet deg u = some ((inCount edges u : Int) - (clCount edges lv u : Int))
  nqSub : ∀ u ∈ nq, u ∈ ids
  nqNodup : nq.Nodup
  nqNew : ∀ u ∈ nq, u ∉ queue0 ∧ alGet lv0 u = none
  nqPreds : ∀ u ∈ nq, ∀ e ∈ edges, e.tgt = u → (alGet lv e.src).isSome
  unlvPred : ∀ u ∈ ids, alGet lv u = none → u ∉ nq → u ∉ todo →
    ∃ e ∈ edges, e.tgt = u ∧ alGet lv e.src = none

/-- Id bookkeeping of the flowchart extractor's node dict: the records'
generated ids are exactly `node1 … nodeN` in insertion (first-seen)
order, the counter stands one past the count, and the node names (dict
keys) are pairwise distinct. -/
def nodesIdSpec (st : FlowSt) : Prop :=
  st.nodes.map (fun p => p.2.id) = (List.range' 1 st.nodes.length).map mkNodeId ∧
  st.nodeCtr = st.nodes.length + 1 ∧
  (st.nodes.map Prod.fst).Nodup

/-- Referential integrity of the extracted edges: every edge's source and
target id is the generated id of one of the node records. -/
def edgesRefSpec (st : FlowSt) : Prop :=
  ∀ e ∈ st.edges, e.src ∈ st.nodes.map (fun p => p.2.id) ∧
    e.tgt ∈ st.nodes.map (fun p => p.2.id)

/-- The combined id invariant carried through the flowchart line loop. -/
def FlowIdSpec (st : FlowSt) : Prop :=
  nodesIdSpec st ∧ edgesRefSpec st

/-- Node-id bookkeeping of any extractor's record dict (the id of a record
is read off by `f`): ids are `node1 … nodeN` in insertion order and the
counter stands one past the count. -/
def idsSpec {α : Type} (f : α → Str) (l : List (Str × α)) (ctr : Nat) : Prop :=
  l.map (fun p => f p.2) = (List.range' 1 l.length).map mkNodeId ∧
  ctr = l.length + 1

/-- Edge-id bookkeeping of any extractor's edge list: ids are
`edge1 … edgeE` in discovery order and the counter stands one past the
count. -/
def edgeIdsSpec (es : List EdgeRec) (ctr : Nat) : Prop :=
  es.map (fun e => e.id) = (List.range' 1 es.length).map mkEdgeId ∧
  ctr = es.length + 1

/-! # Theorems -/

/-! ## Association-list lemmas -/

theorem alGet_alSet {α : Type} (l : List (Str × α)) (k k' : Str) (v : α) :
    alGet (alSet l k v) k' = if k = k' then some v else alGet l k' := by
  induction l with
  | nil => by_cases h : k = k' <;> simp [alSet, alGet, h]
  | cons hd t ih =>
    obtain ⟨k0, v0⟩ := hd
    by_cases h1 : k0 = k
    · subst h1
      by_cases h2 : k0 = k' <;> simp [alSet, alGet, h2]
    · by_cases h2 : k0 = k'
      · subst h2
        have hk : ¬k = k0 := fun h => h1 h.symm
        simp [alSet, alGet, h1, hk]
      · simp [alSet, alGet, h1, h2, ih]

theorem alSet_fresh {α : Type} {l : List (Str × α)} {k : Str} (v : α)
    (h : alGet l k = none) : alSet l k v = l ++ [(k, v)] := by
  induction l with
  | nil => simp [alSet]
  | cons hd t ih =>
    obtain ⟨k0, v0⟩ := hd
    by_cases h1 : k0 = k
    · subst h1; simp [alGet] at h
    · simp only [alGet, if_neg h1] at h
      simp [alSet, h1, ih h]

theorem alGet_append {α : Type} (l1 l2 : List (Str × α)) (k : Str) :
    alGet (l1 ++ l2) k = ((alGet l1 k).rec (alGet l2 k) (fun v => some v)) := by
  induction l1 with
  | nil => simp [alGet]
  | cons hd t ih =>
    obtain ⟨k0, v0⟩ := hd
    by_cases h : k0 = k <;> simp [alGet, h, ih]

theorem alGet_append_left {α : Type} {l1 : List (Str × α)} {k : Str} {v : α}
    (l2 : List (Str × α)) (h : alGet l1 k = some v) : alGet (l1 ++ l2) k = some v := by
  rw [alGet_append, h]

theorem alGet_append_right {α : Type} {l1 : List (Str × α)} {k : Str}
    (l2 : List (Str × α)) (h : alGet l1 k = none) : alGet (l1 ++ l2) k = alGet l2 k := by
  rw [alGet_append, h]

theorem alGet_isSome_iff {α : Type} (l : List (Str × α)) (k : Str) :
    (alGet l k).isSome ↔ k ∈ l.map Prod.fst := by
  induction l with
  | nil => simp [alGet]
  | cons hd t ih =>
    obtain ⟨k0, v0⟩ := hd
    by_cases h1 : k0 = k
    · subst h1
      constructor
      · intro _
        exact List.mem_map_of_mem Prod.fst (List.mem_cons_self _ _)
      · intro _
        simp [alGet]
    · constructor
      · intro h
        simp only [alGet, if_neg h1] at h
        exact List.mem_cons_of_mem _ (ih.1 h)
      · intro h
        simp only [alGet, if_neg h1]
        rw [List.map_cons] at h
        rcases List.mem_cons.1 h with h2 | h2
        · exact absurd h2.symm h1
        · exact ih.2 h2

theorem alGet_eq_none_iff {α : Type} (l : List (Str × α)) (k : Str) :
    alGet l k = none ↔ k ∉ l.map Prod.fst := by
  constructor
  · intro h hm
    have h2 := (alGet_isSome_iff l k).2 hm
    rw [h] at h2
    simp at h2
  · intro hm
    cases hh : alGet l k
    · rfl
    · exact absurd ((alGet_isSome_iff l k).1 (by rw [hh]; rfl)) hm

theorem alGet_mem_of_nodup {α : Type} {l : List (Str × α)} {k : Str} {v : α}
    (hnd : (l.map Prod.fst).Nodup) (h : (k, v) ∈ l) : alGet l k = some v := by
  induction l with
  | nil => simp at h
  | cons hd t ih =>
    obtain ⟨k0, v0⟩ := hd
    simp only [List.map_cons, List.nodup_cons] at hnd
    rcases List.mem_cons.1 h with h | h
    · cases h
      simp [alGet]
    · have hk : ¬k0 = k := by
        intro he
        subst he
        exact hnd.1 (List.mem_map_of_mem Prod.fst h)
      simp [alGet, hk, ih hnd.2 h]

theorem assoc_ext {α : Type} (l1 l2 : List (Str × α))
    (hk : l1.map Prod.fst = l2.map Prod.fst) (hnd : (l1.map Prod.fst).Nodup)
    (hv : ∀ u, alGet l1 u = alGet l2 u) : l1 = l2 := by
  induction l1 generalizing l2 with
  | nil =>
    cases l2 with
    | nil => rfl
    | cons hd t => simp at hk
  | cons hd t ih =>
    cases l2 with
    | nil => simp at hk
    | cons hd2 t2 =>
      obtain ⟨k0, v0⟩ := hd
      obtain ⟨k2, v2⟩ := hd2
      simp only [List.map_cons, List.cons.injEq] at hk
      obtain ⟨hke, hkt⟩ := hk
      subst hke
      simp only [List.map_cons, List.nodup_cons] at hnd
      have hv0 : v0 = v2 := by
        have h0 := hv k0
        simpa [alGet] using h0
      subst hv0
      have ht : t = t2 := by
        refine ih t2 hkt hnd.2 (fun u => ?_)
        by_cases hu : k0 = u
        · subst hu
          have h1 : alGet t k0 = none := (alGet_eq_none_iff t k0).2 hnd.1
          have h2 : alGet t2 k0 = none := (alGet_eq_none_iff t2 k0).2 (hkt ▸ hnd.1)
          rw [h1, h2]
        · have h0 := hv u
          simpa [alGet, hu] using h0
      rw [ht]

theorem alGet_map_const {α : Type} (ids : List Str) (c : α) (u : Str) :
    alGet (ids.map (fun i => (i, c))) u = if u ∈ ids then some c else none := by
  induction ids with
  | nil => simp [alGet]
  | cons i t ih =>
    by_cases h : i = u
    · subst h; simp [alGet]
    · have h2 : ¬u = i := fun hh => h hh.symm
      simp [alGet, h, ih, h2]

theorem foldl_alSet_fresh {α : Type} (c : α) :
    ∀ (ids : List Str) (acc : List (Str × α)), ids.Nodup →
      (∀ k ∈ ids, alGet acc k = none) →
      ids.foldl (fun g i => alSet g i c) acc = acc ++ ids.map (fun i => (i, c))
  | [], acc, _, _ => by simp
  | i :: t, acc, hnd, hf => by
    simp only [List.foldl_cons]
    rw [alSet_fresh c (hf i (by simp))]
    rw [foldl_alSet_fresh c t (acc ++ [(i, c)]) (List.nodup_cons.1 hnd).2 ?fresh]
    · simp
    case fresh =>
      intro k hk
      have h1 : alGet acc k = none := hf k (List.mem_cons_of_mem i hk)
      have h2 : ¬i = k := fun he => (List.nodup_cons.1 hnd).1 (he ▸ hk)
      rw [alGet_append_right _ h1]
      simp [alGet, h2]

theorem buildDeg_eq (ids : List Str) (hnd : ids.Nodup) :
    buildDeg ids = ids.map (fun i => (i, (0 : Int))) := by
  have h := foldl_alSet_fresh (0 : Int) ids [] hnd (fun k _ => rfl)
  simpa [buildDeg] using h

theorem buildAdj_eq (ids : List Str) (hnd : ids.Nodup) :
    buildAdj ids = ids.map (fun i => (i, ([] : List Str))) := by
  have h := foldl_alSet_fresh ([] : List Str) ids [] hnd (fun k _ => rfl)
  simpa [buildAdj] using h

theorem alGet_degIncr (d : List (Str × Int)) (v u : Str) :
    alGet (degIncr d v) u = if v = u then (alGet d u).map (fun x => x + 1) else alGet d u := by
  induction d with
  | nil => by_cases h : v = u <;> simp [degIncr, alGet, h]
  | cons hd t ih =>
    obtain ⟨k0, v0⟩ := hd
    by_cases h1 : k0 = v
    · subst h1
      by_cases h2 : k0 = u
      · subst h2; simp [degIncr, alGet]
      · have h3 : ¬k0 = u := h2
        simp [degIncr, alGet, h3]
    · by_cases h2 : k0 = u
      · subst h2
        have h3 : ¬v = k0 := fun h => h1 h.symm
        simp [degIncr, alGet, h1, h3]
      · simp [degIncr, alGet, h1, h2, ih]

theorem alGet_degDecr (d : List (Str × Int)) (v u : Str) :
    alGet (degDecr d v) u = if v = u then (alGet d u).map (fun x => x - 1) else alGet d u := by
  induction d with
  | nil => by_cases h : v = u <;> simp [degDecr, alGet, h]
  | cons hd t ih =>
    obtain ⟨k0, v0⟩ := hd
    by_cases h1 : k0 = v
    · subst h1
      by_cases h2 : k0 = u
      · subst h2; simp [degDecr, alGet]
      · simp [degDecr, alGet, h2]
    · by_cases h2 : k0 = u
      · subst h2
        have h3 : ¬v = k0 := fun h => h1 h.symm
        simp [degDecr, alGet, h1, h3]
      · simp [degDecr, alGet, h1, h2, ih]

theorem alGet_adjAppend (g : List (Str × List Str)) (a b : Str) (u : Str) :
    alGet (adjAppend g a b) u =
      if a = u then (alGet g u).map (fun l => l ++ [b]) else alGet g u := by
  induction g with
  | nil => by_cases h : a = u <;> simp [adjAppend, alGet, h]
  | cons hd t ih =>
    obtain ⟨k0, v0⟩ := hd
    by_cases h1 : k0 = a
    · subst h1
      by_cases h2 : k0 = u
      · subst h2; simp [adjAppend, alGet]
      · simp [adjAppend, alGet, h2]
    · by_cases h2 : k0 = u
      · subst h2
        have h3 : ¬a = k0 := fun h => h1 h.symm
        simp [adjAppend, alGet, h1, h3]
      · simp [adjAppend, alGet, h1, h2, ih]

theorem map_fst_degIncr (d : List (Str × Int)) (v : Str) :
    (degIncr d v).map Prod.fst = d.map Prod.fst := by
  induction d with
  | nil => rfl
  | cons hd t ih =>
    obtain ⟨k0, v0⟩ := hd
    by_cases h : k0 = v <;> simp [degIncr, h, ih]

theorem map_fst_degDecr (d : List (Str × Int)) (v : Str) :
    (degDecr d v).map Prod.fst = d.map Prod.fst := by
  induction d with
  | nil => rfl
  | cons hd t ih =>
    obtain ⟨k0, v0⟩ := hd
    by_cases h : k0 = v <;> simp [degDecr, h, ih]

theorem foldl_degIncr (es : List EdgeRec) :
    ∀ (d : List (Str × Int)) (u : Str),
      alGet (es.foldl (fun d e => degIncr d e.tgt) d) u =
        (alGet d u).map (fun x => x + (es.countP (fun e => decide (e.tgt = u)) : Int)) := by
  induction es with
  | nil =>
    intro d u
    cases h : alGet d u <;> simp [h]
  | cons e es ih =>
    intro d u
    simp only [List.foldl_cons]
    rw [ih (degIncr d e.tgt) u, alGet_degIncr]
    by_cases h : e.tgt = u
    · subst h
      cases hd : alGet d e.tgt <;> simp [hd, List.countP_cons]
      omega
    · simp [h, List.countP_cons]

theorem map_fst_foldl_degIncr (es : List EdgeRec) :
    ∀ d : List (Str × Int),
      (es.foldl (fun d e => degIncr d e.tgt) d).map Prod.fst = d.map Prod.fst := by
  induction es with
  | nil => intro d; rfl
  | cons e es ih =>
    intro d
    simp only [List.foldl_cons]
    rw [ih, map_fst_degIncr]

theorem foldl_adjAppend (es : List EdgeRec) :
    ∀ (g : List (Str × List Str)) (u : Str),
      alGet (es.foldl (fun g e => adjAppend g e.src e.tgt) g) u =
        (alGet g u).map (fun l => l ++ outNbrs es u) := by
  induction es with
  | nil =>
    intro g u
    cases h : alGet g u <;> simp [h, outNbrs]
  | cons e es ih =>
    intro g u
    simp only [List.foldl_cons]
    rw [ih (adjAppend g e.src e.tgt) u, alGet_adjAppend]
    by_cases h : e.src = u
    · rw [if_pos h]
      cases hg : alGet g u <;> simp [hg, outNbrs, List.filter_cons, h]
    · rw [if_neg h]
      cases hg : alGet g u <;> simp [hg, outNbrs, List.filter_cons, h]

/-! ## Counting lemmas -/

theorem countP_or_disjoint {α : Type} (l : List α) (p q : α → Bool)
    (h : ∀ a ∈ l, ¬(p a = true ∧ q a = true)) :
    l.countP (fun a => p a || q a) = l.countP p + l.countP q := by
  induction l with
  | nil => rfl
  | cons a t ih =>
    have ht : ∀ b ∈ t, ¬(p b = true ∧ q b = true) := fun b hb => h b (List.mem_cons_of_mem a hb)
    by_cases hp : p a <;> by_cases hq : q a
    · exact absurd ⟨hp, hq⟩ (h a (List.mem_cons_self a t))
    · simp [List.countP_cons, hp, hq, ih ht]
      omega
    · simp [List.countP_cons, hp, hq, ih ht]
      omega
    · simp [List.countP_cons, hp, hq, ih ht]

theorem countP_and_le {α : Type} (l : List α) (p q : α → Bool) :
    l.countP (fun a => q a && p a) ≤ l.countP q :=
  List.countP_mono_left (fun a _ hh => ((Bool.and_eq_true _ _).mp hh).1)

theorem countP_and_eq_iff {α : Type} (l : List α) (p q : α → Bool) :
    l.countP (fun a => q a && p a) = l.countP q ↔ ∀ a ∈ l, q a = true → p a = true := by
  induction l with
  | nil => simp
  | cons a t ih =>
    have hle : t.countP (fun a => q a && p a) ≤ t.countP q := countP_and_le t p q
    by_cases hq : q a
    · by_cases hp : p a
      · have h1 : (a :: t).countP (fun a => q a && p a) =
            t.countP (fun a => q a && p a) + 1 := by
          simp [List.countP_cons, hq, hp]
        have h2 : (a :: t).countP q = t.countP q + 1 := by
          simp [List.countP_cons, hq]
        rw [h1, h2]
        constructor
        · intro h b hb hqb
          rcases List.mem_cons.1 hb with hb | hb
          · subst hb; exact hp
          · exact (ih.1 (by omega)) b hb hqb
        · intro h
          have := ih.2 (fun b hb hqb => h b (List.mem_cons_of_mem a hb) hqb)
          omega
      · have h1 : (a :: t).countP (fun a => q a && p a) =
            t.countP (fun a => q a && p a) := by
          simp [List.countP_cons, hq, hp]
        have h2 : (a :: t).countP q = t.countP q + 1 := by
          simp [List.countP_cons, hq]
        rw [h1, h2]
        constructor
        · intro h
          omega
        · intro h
          exact absurd (h a (List.mem_cons_self a t) hq) (by simp [hp])
    · have h1 : (a :: t).countP (fun a => q a && p a) =
          t.countP (fun a => q a && p a) := by
        simp [List.countP_cons, hq]
      have h2 : (a :: t).countP q = t.countP q := by
        simp [List.countP_cons, hq]
      rw [h1, h2, ih]
      constructor
      · intro h b hb hqb
        rcases List.mem_cons.1 hb with hb | hb
        · subst hb; exact absurd hqb (by simp [hq])
        · exact h b hb hqb
      · intro h b hb hqb
        exact h b (List.mem_cons_of_mem a hb) hqb

theorem countP_lt_exists {α : Type} (l : List α) (p q : α → Bool)
    (h : l.countP (fun a => q a && p a) < l.countP q) :
    ∃ a ∈ l, q a = true ∧ p a = false := by
  by_contra hc
  push_neg at hc
  have hall : ∀ a ∈ l, q a = true → p a = true := by
    intro a ha hq
    cases hpa : p a
    · exact absurd hpa (hc a ha hq)
    · rfl
  exact absurd ((countP_and_eq_iff l p q).2 hall) (Nat.ne_of_lt h)

theorem countP_strict_lt {α : Type} (l : List α) (p q : α → Bool)
    (hmono : ∀ a ∈ l, p a = true → q a = true) (a0 : α) (ha : a0 ∈ l)
    (hq : q a0 = true) (hp : p a0 = false) : l.countP p < l.countP q := by
  induction l with
  | nil => simp at ha
  | cons b t ih =>
    have htm : ∀ a ∈ t, p a = true → q a = true :=
      fun a hat => hmono a (List.mem_cons_of_mem b hat)
    have hle : t.countP p ≤ t.countP q := List.countP_mono_left htm
    rcases List.mem_cons.1 ha with h | h
    · subst h
      simp [List.countP_cons, hq, hp]
      omega
    · have hlt := ih htm h
      by_cases hb : p b
      · have hqb := hmono b (List.mem_cons_self b t) hb
        simp [List.countP_cons, hb, hqb]
        omega
      · by_cases hqb : q b <;> simp [List.countP_cons, hb, hqb] <;> omega

theorem leveled_alSet (lv : List (Str × Nat)) (n : Str) (L : Nat) (s : Str) :
    leveled (alSet lv n L) s = (leveled lv s || decide (s = n)) := by
  unfold leveled
  rw [alGet_alSet]
  by_cases h : n = s
  · subst h; simp
  · have h2 : ¬s = n := fun hh => h hh.symm
    simp [h, h2]

theorem clCount_le_inCount (edges : List EdgeRec) (lv : List (Str × Nat)) (u : Str) :
    clCount edges lv u ≤ inCount edges u :=
  countP_and_le edges (fun e => leveled lv e.src) (fun e => decide (e.tgt = u))

theorem clCount_eq_iff (edges : List EdgeRec) (lv : List (Str × Nat)) (u : Str) :
    clCount edges lv u = inCount edges u ↔
      ∀ e ∈ edges, e.tgt = u → leveled lv e.src = true := by
  have h := countP_and_eq_iff edges (fun e => leveled lv e.src) (fun e => decide (e.tgt = u))
  unfold clCount inCount
  rw [h]
  constructor
  · intro hh e he ht
    exact hh e he (by simpa using ht)
  · intro hh e he ht
    exact hh e he (by simpa using ht)

theorem clCount_lt_exists (edges : List EdgeRec) (lv : List (Str × Nat)) (u : Str)
    (h : clCount edges lv u < inCount edges u) :
    ∃ e ∈ edges, e.tgt = u ∧ alGet lv e.src = none := by
  have h2 := countP_lt_exists edges (fun e => leveled lv e.src) (fun e => decide (e.tgt = u)) h
  obtain ⟨e, he, hq, hp⟩ := h2
  refine ⟨e, he, by simpa using hq, ?_⟩
  have h3 : ¬(alGet lv e.src).isSome := by simpa [leveled] using hp
  cases hh : alGet lv e.src
  · rfl
  · rw [hh] at h3
    simp at h3

theorem clCount_alSet (edges : List EdgeRec) (lv : List (Str × Nat)) (n : Str) (L : Nat)
    (u : Str) (hn : alGet lv n = none) :
    clCount edges (alSet lv n L) u =
      clCount edges lv u + (outNbrs edges n).countP (fun v => decide (v = u)) := by
  have h1 : (outNbrs edges n).countP (fun v => decide (v = u)) =
      edges.countP (fun e => decide (e.tgt = u) && decide (e.src = n)) := by
    unfold outNbrs
    rw [List.countP_map, List.countP_filter]
    rfl
  rw [h1]
  unfold clCount
  have h2 : ∀ e ∈ edges,
      (decide (e.tgt = u) && leveled (alSet lv n L) e.src) =
        ((decide (e.tgt = u) && leveled lv e.src) ||
         (decide (e.tgt = u) && decide (e.src = n))) := by
    intro e _
    rw [leveled_alSet]
    cases hT : decide (e.tgt = u) <;> cases hL : leveled lv e.src <;>
      cases hS : decide (e.src = n) <;> simp
  rw [List.countP_congr (fun x hx => by rw [h2 x hx])]
  refine countP_or_disjoint edges _ _ ?_
  rintro e _ ⟨hl, hr⟩
  have hsrc : e.src = n := by
    have h3 := ((Bool.and_eq_true _ _).mp hr).2
    simpa using h3
  have hlev : leveled lv e.src = true := ((Bool.and_eq_true _ _).mp hl).2
  rw [hsrc] at hlev
  simp [leveled, hn] at hlev

/-! ## Lemmas on the inner neighbour loop -/

theorem processNbrs_fst_keys (vs : List Str) :
    ∀ (d : List (Str × Int)) (nq : List Str),
      ((processNbrs (d, nq) vs).1).map Prod.fst = d.map Prod.fst := by
  induction vs with
  | nil => intro d nq; rfl
  | cons v vs ih =>
    intro d nq
    simp only [processNbrs]
    rw [ih, map_fst_degDecr]

theorem processNbrs_fst_val (vs : List Str) :
    ∀ (d : List (Str × Int)) (nq : List Str) (u : Str),
      alGet (processNbrs (d, nq) vs).1 u =
        (alGet d u).map (fun x => x - (vs.countP (fun v => decide (v = u)) : Int)) := by
  induction vs with
  | nil =>
    intro d nq u
    cases h : alGet d u <;> simp [processNbrs, h]
  | cons v vs ih =>
    intro d nq u
    simp only [processNbrs]
    rw [ih, alGet_degDecr]
    by_cases h : v = u
    · subst h
      cases hd : alGet d v <;> simp [hd, List.countP_cons]
      omega
    · have h2 : ¬u = v := fun hh => h hh.symm
      simp [h, h2, List.countP_cons]

theorem processNbrs_snd_append (vs : List Str) :
    ∀ (d : List (Str × Int)) (nq : List Str),
      (processNbrs (d, nq) vs).2 = nq ++ pnNews d vs := by
  induction vs with
  | nil => intro d nq; simp [processNbrs, pnNews]
  | cons v vs ih =>
    intro d nq
    by_cases h : alGet (degDecr d v) v = some 0
    · have l1 : (processNbrs (d, nq) (v :: vs)).2 =
          (processNbrs (degDecr d v, nq ++ [v]) vs).2 := by
        simp only [processNbrs, if_pos h]
      have l2 : pnNews d (v :: vs) = (processNbrs (degDecr d v, [] ++ [v]) vs).2 := by
        simp only [pnNews, processNbrs, if_pos h]
      rw [l1, l2, ih, ih]
      simp
    · have l1 : (processNbrs (d, nq) (v :: vs)).2 =
          (processNbrs (degDecr d v, nq) vs).2 := by
        simp only [processNbrs, if_neg h]
      have l2 : pnNews d (v :: vs) = (processNbrs (degDecr d v, []) vs).2 := by
        simp only [pnNews, processNbrs, if_neg h]
      rw [l1, l2, ih, ih]
      simp

theorem pnNews_cons (v : Str) (vs : List Str) (d : List (Str × Int)) :
    pnNews d (v :: vs) =
      (if alGet (degDecr d v) v = some 0 then [v] else []) ++ pnNews (degDecr d v) vs := by
  by_cases h : alGet (degDecr d v) v = some 0
  · have l2 : pnNews d (v :: vs) = (processNbrs (degDecr d v, [] ++ [v]) vs).2 := by
      simp only [pnNews, processNbrs, if_pos h]
    rw [l2, processNbrs_snd_append, if_pos h]
    simp
  · have l2 : pnNews d (v :: vs) = (processNbrs (degDecr d v, []) vs).2 := by
      simp only [pnNews, processNbrs, if_neg h]
    rw [l2, processNbrs_snd_append, if_neg h]

theorem pnNews_mem (vs : List Str) :
    ∀ (d : List (Str × Int)) (u : Str),
      u ∈ pnNews d vs ↔
        ∃ x, alGet d u = some x ∧ 0 < x ∧
          x ≤ (vs.countP (fun v => decide (v = u)) : Int) := by
  induction vs with
  | nil =>
    intro d u
    simp only [pnNews, processNbrs, List.not_mem_nil, false_iff]
    rintro ⟨x, _, hx, hle⟩
    simp at hle
    omega
  | cons v vs ih =>
    intro d u
    rw [pnNews_cons]
    by_cases hvu : v = u
    · subst hvu
      have hdec : alGet (degDecr d v) v = (alGet d v).map (fun x => x - 1) := by
        rw [alGet_degDecr, if_pos rfl]
      have hcnt : ((v :: vs).countP (fun w => decide (w = v)) : Int) =
          (vs.countP (fun w => decide (w = v)) : Int) + 1 := by
        simp [List.countP_cons]
      by_cases hc : alGet (degDecr d v) v = some 0
      · refine iff_of_true (by simp [hc]) ?_
        rw [hdec] at hc
        cases hd : alGet d v with
        | none => rw [hd] at hc; simp at hc
        | some x0 =>
          rw [hd] at hc
          simp only [Option.map_some'] at hc
          have hx0 := Option.some.inj hc
          refine ⟨x0, rfl, by omega, ?_⟩
          rw [hcnt]
          omega
      · rw [if_neg hc]
        rw [hdec] at hc
        simp only [List.nil_append, ih, hdec]
        rw [hcnt]
        cases hd : alGet d v with
        | none =>
          constructor
          · rintro ⟨x, hx, _, _⟩
            simp at hx
          · rintro ⟨x, hx, _, _⟩
            simp at hx
        | some x0 =>
          rw [hd] at hc
          simp only [Option.map_some', Option.some.injEq] at hc ⊢
          constructor
          · rintro ⟨x, hx, hpos, hle⟩
            exact ⟨x0, rfl, by omega, by omega⟩
          · rintro ⟨x, hx, hpos, hle⟩
            exact ⟨x0 - 1, rfl, by omega, by omega⟩
    · have hdec : alGet (degDecr d v) u = alGet d u := by
        rw [alGet_degDecr, if_neg hvu]
      have hcnt : ((v :: vs).countP (fun w => decide (w = u)) : Int) =
          (vs.countP (fun w => decide (w = u)) : Int) := by
        simp [List.countP_cons, hvu]
      rw [List.mem_append, ih, hdec, hcnt]
      constructor
      · rintro (h | h)
        · by_cases hc : alGet (degDecr d v) v = some 0
          · rw [if_pos hc] at h
            simp at h
            exact absurd h.symm hvu
          · rw [if_neg hc] at h
            simp at h
        · exact h
      · intro h
        right
        exact h

theorem pnNews_nodup (vs : List Str) :
    ∀ d : List (Str × Int), (pnNews d vs).Nodup := by
  induction vs with
  | nil => intro d; simp [pnNews, processNbrs]
  | cons v vs ih =>
    intro d
    rw [pnNews_cons]
    by_cases h : alGet (degDecr d v) v = some 0
    · simp only [if_pos h, List.singleton_append, List.nodup_cons]
      refine ⟨?_, ih _⟩
      intro hb
      rw [pnNews_mem] at hb
      obtain ⟨x, hx, hpos, _⟩ := hb
      rw [hx] at h
      have h2 := Option.some.inj h
      omega
    · simp only [if_neg h, List.nil_append]
      exact ih _
/-- A loop whose frontier is already empty is finished, whatever the fuel. -/
theorem kahnLoop_empty (graph : List (Str × List Str)) (f : Nat) (st : KahnSt)
    (h : st.queue = []) : kahnLoop graph f st = st := by
  cases f with
  | zero => rfl
  | succ f => simp [kahnLoop, h]

/-! ## Preservation of the frontier-fold invariant -/

theorem kahnMid_step (graph : List (Str × List Str)) (ids : List Str)
    (edges : List EdgeRec) (lv0 : List (Str × Nat)) (queue0 : List Str) (L : Nat)
    (hgraph : ∀ u ∈ ids, alGet graph u = some (outNbrs edges u))
    (hq0nd : queue0.Nodup) (hq0sub : ∀ q ∈ queue0, q ∈ ids)
    (hq0unlv : ∀ q ∈ queue0, alGet lv0 q = none)
    (hq0preds : ∀ q ∈ queue0, ∀ e ∈ edges, e.tgt = q → (alGet lv0 e.src).isSome)
    (hlv0preds : ∀ u l, alGet lv0 u = some l → ∀ e ∈ edges, e.tgt = u →
      (alGet lv0 e.src).isSome)
    (done todo : List Str) (n : Str) (lv : List (Str × Nat)) (deg : List (Str × Int))
    (nq : List Str)
    (hmid : KahnMid ids edges lv0 queue0 L done (n :: todo) lv deg nq) :
    KahnMid ids edges lv0 queue0 L (done ++ [n]) todo
      (kahnNodeStep graph L (lv, deg, nq) n).1
      (kahnNodeStep graph L (lv, deg, nq) n).2.1
      (kahnNodeStep graph L (lv, deg, nq) n).2.2 := by
  have hn_q0 : n ∈ queue0 := by
    rw [hmid.split]
    exact List.mem_append_right _ (List.mem_cons_self _ _)
  have hn_ids : n ∈ ids := hq0sub n hn_q0
  have hvsn : (alGet graph n).getD [] = outNbrs edges n := by
    rw [hgraph n hn_ids]
    rfl
  have hq0nd2 : (done ++ n :: todo).Nodup := hmid.split ▸ hq0nd
  have hnd3 := List.nodup_append.1 hq0nd2
  have hn_done : n ∉ done := fun hd => hnd3.2.2 hd (List.mem_cons_self _ _)
  have hn_lv : alGet lv n = none := by
    rw [hmid.lvChar n, if_neg hn_done]
    exact hq0unlv n hn_q0
  -- the three components of the step
  have hstep1 : (kahnNodeStep graph L (lv, deg, nq) n).1 = alSet lv n L := rfl
  have hstep2 : (kahnNodeStep graph L (lv, deg, nq) n).2.1 =
      (processNbrs (deg, nq) (outNbrs edges n)).1 := by
    simp [kahnNodeStep, hvsn]
  have hstep3 : (kahnNodeStep graph L (lv, deg, nq) n).2.2 =
      nq ++ pnNews deg (outNbrs edges n) := by
    simp [kahnNodeStep, hvsn, processNbrs_snd_append]
  rw [hstep1, hstep2, hstep3]
  set lv' := alSet lv n L with hlv'
  -- levels grow monotonically
  have hlv_char' : ∀ u, alGet lv' u = if u ∈ done ++ [n] then some L else alGet lv0 u := by
    intro u
    rw [hlv', alGet_alSet]
    by_cases hnu : n = u
    · subst hnu
      simp
    · rw [if_neg hnu, hmid.lvChar u]
      have h2 : (u ∈ done ++ [n]) ↔ u ∈ done := by
        simp [List.mem_append]
        intro hh
        exact absurd hh.symm hnu
      by_cases hd : u ∈ done
      · rw [if_pos hd, if_pos (h2.2 hd)]
      · rw [if_neg hd, if_neg (fun hh => hd (h2.1 hh))]
  have hmono_some : ∀ u x, alGet lv u = some x → alGet lv' u = some x := by
    intro u x hx
    rw [hlv', alGet_alSet]
    by_cases hnu : n = u
    · subst hnu
      rw [hn_lv] at hx
      cases hx
    · rw [if_neg hnu]
      exact hx
  have hmono_lev : ∀ s, leveled lv s = true → leveled lv' s = true := by
    intro s hs
    unfold leveled at hs ⊢
    cases hh : alGet lv s with
    | none => rw [hh] at hs; simp at hs
    | some x => rw [hmono_some s x hh]; rfl
  have hlv0_to_lv : ∀ s, (alGet lv0 s).isSome → leveled lv s = true := by
    intro s hs
    unfold leveled
    rw [hmid.lvChar s]
    by_cases hd : s ∈ done
    · rw [if_pos hd]; rfl
    · rw [if_neg hd]; exact hs
  -- the in-degree bookkeeping after the neighbour loop
  have hcl' : ∀ u, (clCount edges lv' u : Int) =
      (clCount edges lv u : Int) +
        ((outNbrs edges n).countP (fun v => decide (v = u)) : Int) := by
    intro u
    rw [hlv', clCount_alSet edges lv n L u hn_lv]
    push_cast
    ring
  have hdeg' : ∀ u ∈ ids,
      alGet (processNbrs (deg, nq) (outNbrs edges n)).1 u =
        some ((inCount edges u : Int) - (clCount edges lv' u : Int)) := by
    intro u hu
    rw [processNbrs_fst_val, hmid.degVal u hu, hcl' u]
    simp only [Option.map_some']
    congr 1
    ring
  -- membership characterization of the fresh next-frontier elements
  have hnews : ∀ u, u ∈ pnNews deg (outNbrs edges n) →
      u ∈ ids ∧
      0 < (inCount edges u : Int) - (clCount edges lv u : Int) ∧
      (inCount edges u : Int) - (clCount edges lv u : Int) ≤
        ((outNbrs edges n).countP (fun v => decide (v = u)) : Int) := by
    intro u hu
    obtain ⟨x, hx, hxpos, hxle⟩ := (pnNews_mem _ _ _).1 hu
    have hu_ids : u ∈ ids := by
      rw [← hmid.degKeys]
      exact (alGet_isSome_iff _ _).1 (by rw [hx]; rfl)
    have hxval := hmid.degVal u hu_ids
    rw [hx] at hxval
    have hxx := Option.some.inj hxval
    subst hxx
    exact ⟨hu_ids, hxpos, hxle⟩
  have hnews_preds : ∀ u, u ∈ pnNews deg (outNbrs edges n) →
      ∀ e ∈ edges, e.tgt = u → leveled lv' e.src = true := by
    intro u hu
    obtain ⟨hu_ids, hpos, hle⟩ := hnews u hu
    have h1 : (inCount edges u : Int) ≤ (clCount edges lv' u : Int) := by
      rw [hcl' u]
      omega
    have h2 : clCount edges lv' u = inCount edges u := by
      have := clCount_le_inCount edges lv' u
      omega
    exact (clCount_eq_iff edges lv' u).1 h2
  have hold_full : ∀ u, u ∈ nq → clCount edges lv u = inCount edges u := by
    intro u hu
    refine (clCount_eq_iff edges lv u).2 ?_
    intro e he ht
    have := hmid.nqPreds u hu e he ht
    unfold leveled
    cases hh : alGet lv e.src
    · rw [hh] at this; simp at this
    · rfl
  refine ⟨?_, hlv_char', ?_, hdeg', ?_, ?_, ?_, ?_, ?_⟩
  -- split
  · rw [hmid.split]
    simp
  -- degKeys
  · rw [processNbrs_fst_keys]
    exact hmid.degKeys
  -- nqSub
  · intro u hu
    rcases List.mem_append.1 hu with hu | hu
    · exact hmid.nqSub u hu
    · exact (hnews u hu).1
  -- nqNodup
  · rw [List.nodup_append]
    refine ⟨hmid.nqNodup, pnNews_nodup _ _, ?_⟩
    intro u hu hu2
    have h0 := hold_full u hu
    have := (hnews u hu2).2.1
    omega
  -- nqNew
  · intro u hu
    rcases List.mem_append.1 hu with hu | hu
    · exact hmid.nqNew u hu
    · obtain ⟨hu_ids, hpos, _⟩ := hnews u hu
      constructor
      · intro hq0
        have hfull : clCount edges lv u = inCount edges u := by
          refine (clCount_eq_iff edges lv u).2 ?_
          intro e he ht
          exact hlv0_to_lv e.src (hq0preds u hq0 e he ht)
        omega
      · cases hl : alGet lv0 u with
        | none => rfl
        | some l =>
          have hfull : clCount edges lv u = inCount edges u := by
            refine (clCount_eq_iff edges lv u).2 ?_
            intro e he ht
            exact hlv0_to_lv e.src (hlv0preds u l hl e he ht)
          omega
  -- nqPreds
  · intro u hu
    rcases List.mem_append.1 hu with hu | hu
    · intro e he ht
      have := hmid.nqPreds u hu e he ht
      have h2 : leveled lv e.src = true := by
        unfold leveled
        cases hh : alGet lv e.src
        · rw [hh] at this; simp at this
        · rfl
      have h3 := hmono_lev e.src h2
      unfold leveled at h3
      cases hh : alGet lv' e.src
      · rw [hh] at h3; simp at h3
      · rfl
    · exact hnews_preds u hu
  -- unlvPred
  · intro u hu_ids hu_none hu_nq hu_todo
    have hu_ne_n : u ≠ n := by
      intro he
      subst he
      rw [hlv_char' u, if_pos (by simp)] at hu_none
      cases hu_none
    have hu_lv_none : alGet lv u = none := by
      cases hh : alGet lv u with
      | none => rfl
      | some x =>
        rw [hmono_some u x hh] at hu_none
        cases hu_none
    have hu_nq_old : u ∉ nq := fun hh => hu_nq (List.mem_append_left _ hh)
    have hu_news : u ∉ pnNews deg (outNbrs edges n) :=
      fun hh => hu_nq (List.mem_append_right _ hh)
    have hu_ntodo : u ∉ n :: todo := by
      intro hh
      rcases List.mem_cons.1 hh with hh | hh
      · exact hu_ne_n hh
      · exact hu_todo hh
    obtain ⟨e, he, ht, hsrc⟩ := hmid.unlvPred u hu_ids hu_lv_none hu_nq_old hu_ntodo
    by_cases hsrc' : alGet lv' e.src = none
    · exact ⟨e, he, ht, hsrc'⟩
    · have hsn : e.src = n := by
        rw [hlv', alGet_alSet] at hsrc'
        by_cases hns : n = e.src
        · exact hns.symm
        · rw [if_neg hns, hsrc] at hsrc'
          exact absurd rfl hsrc'
      have hlt : clCount edges lv u < inCount edges u := by
        have hle := clCount_le_inCount edges lv u
        have hne : clCount edges lv u ≠ inCount edges u := by
          intro heq
          have h5 := (clCount_eq_iff edges lv u).1 heq e he ht
          rw [hsn] at h5
          unfold leveled at h5
          rw [hn_lv] at h5
          simp at h5
        omega
      have hx_no : ¬(0 < (inCount edges u : Int) - (clCount edges lv u : Int) ∧
          (inCount edges u : Int) - (clCount edges lv u : Int) ≤
            ((outNbrs edges n).countP (fun v => decide (v = u)) : Int)) := by
        intro ⟨h1, h2⟩
        refine hu_news ((pnNews_mem _ _ _).2 ?_)
        exact ⟨_, hmid.degVal u hu_ids, h1, h2⟩
      have hlt' : clCount edges lv' u < inCount edges u := by
        have h1 : 0 < (inCount edges u : Int) - (clCount edges lv u : Int) := by
          omega
        have h2 : ¬((inCount edges u : Int) - (clCount edges lv u : Int) ≤
            ((outNbrs edges n).countP (fun v => decide (v = u)) : Int)) := by
          intro hh
          exact hx_no ⟨h1, hh⟩
        have h3 := hcl' u
        omega
      obtain ⟨e2, he2, ht2, hs2⟩ := clCount_lt_exists edges lv' u hlt'
      exact ⟨e2, he2, ht2, hs2⟩

theorem kahnFold_mid (graph : List (Str × List Str)) (ids : List Str)
    (edges : List EdgeRec) (lv0 : List (Str × Nat)) (queue0 : List Str) (L : Nat)
    (hgraph : ∀ u ∈ ids, alGet graph u = some (outNbrs edges u))
    (hq0nd : queue0.Nodup) (hq0sub : ∀ q ∈ queue0, q ∈ ids)
    (hq0unlv : ∀ q ∈ queue0, alGet lv0 q = none)
    (hq0preds : ∀ q ∈ queue0, ∀ e ∈ edges, e.tgt = q → (alGet lv0 e.src).isSome)
    (hlv0preds : ∀ u l, alGet lv0 u = some l → ∀ e ∈ edges, e.tgt = u →
      (alGet lv0 e.src).isSome) :
    ∀ (todo done : List Str) (lv : List (Str × Nat)) (deg : List (Str × Int))
      (nq : List Str),
      KahnMid ids edges lv0 queue0 L done todo lv deg nq →
      KahnMid ids edges lv0 queue0 L (done ++ todo) []
        (todo.foldl (kahnNodeStep graph L) (lv, deg, nq)).1
        (todo.foldl (kahnNodeStep graph L) (lv, deg, nq)).2.1
        (todo.foldl (kahnNodeStep graph L) (lv, deg, nq)).2.2 := by
  intro todo
  induction todo with
  | nil =>
    intro done lv deg nq h
    simpa using h
  | cons n todo ih =>
    intro done lv deg nq h
    have hstep := kahnMid_step graph ids edges lv0 queue0 L hgraph hq0nd hq0sub
      hq0unlv hq0preds hlv0preds done todo n lv deg nq h
    have h2 := ih (done ++ [n]) (kahnNodeStep graph L (lv, deg, nq) n).1
      (kahnNodeStep graph L (lv, deg, nq) n).2.1
      (kahnNodeStep graph L (lv, deg, nq) n).2.2 hstep
    simp only [List.foldl_cons]
    have heta : ((kahnNodeStep graph L (lv, deg, nq) n).1,
        (kahnNodeStep graph L (lv, deg, nq) n).2.1,
        (kahnNodeStep graph L (lv, deg, nq) n).2.2) =
        kahnNodeStep graph L (lv, deg, nq) n := rfl
    rw [heta] at h2
    simpa [List.append_assoc] using h2

theorem kahnIter_inv (graph : List (Str × List Str)) (ids : List Str)
    (edges : List EdgeRec)
    (hgraph : ∀ u ∈ ids, alGet graph u = some (outNbrs edges u))
    (st : KahnSt) (hinv : KahnInv ids edges st) :
    KahnInv ids edges (kahnIter graph st) ∧
    (∀ u x, alGet st.levels u = some x → alGet (kahnIter graph st).levels u = some x) ∧
    (st.queue ≠ [] →
      unleveledCount ids (kahnIter graph st).levels < unleveledCount ids st.levels) := by
  have hlv0preds : ∀ u l, alGet st.levels u = some l → ∀ e ∈ edges, e.tgt = u →
      (alGet st.levels e.src).isSome := by
    intro u l hl e he ht
    obtain ⟨m, hm, _⟩ := hinv.lvPreds u l hl e he ht
    rw [hm]
    rfl
  have hmid0 : KahnMid ids edges st.levels st.queue st.curLevel [] st.queue
      st.levels st.inDeg [] := by
    refine ⟨by simp, fun u => by simp, hinv.degKeys, hinv.degVal, by simp, by simp,
      by simp, by simp, ?_⟩
    intro u hu hnone _ hq
    exact hinv.waiting u hu hnone hq
  have hend := kahnFold_mid graph ids edges st.levels st.queue st.curLevel hgraph
    hinv.qNodup hinv.qSub hinv.qUnlv hinv.qPreds hlv0preds st.queue [] st.levels
    st.inDeg [] hmid0
  simp only [List.nil_append] at hend
  set Z := st.queue.foldl (kahnNodeStep graph st.curLevel) (st.levels, st.inDeg, [])
    with hZ
  have hiter : kahnIter graph st = ⟨Z.1, Z.2.1, Z.2.2, st.curLevel + 1⟩ := rfl
  have hmono : ∀ u x, alGet st.levels u = some x → alGet Z.1 u = some x := by
    intro u x hx
    rw [hend.lvChar u]
    by_cases hq : u ∈ st.queue
    · rw [hinv.qUnlv u hq] at hx
      cases hx
    · rw [if_neg hq]
      exact hx
  rw [hiter]
  refine ⟨⟨hend.degKeys, hend.degVal, ?_, ?_, hend.nqNodup, hend.nqSub, ?_,
    hend.nqPreds, ?_, ?_⟩, hmono, ?_⟩
  -- lvDom
  · intro u hu
    rw [hend.lvChar u] at hu
    by_cases hq : u ∈ st.queue
    · exact hinv.qSub u hq
    · rw [if_neg hq] at hu
      exact hinv.lvDom u hu
  -- lvLt
  · intro u l hl
    show l < st.curLevel + 1
    rw [hend.lvChar u] at hl
    by_cases hq : u ∈ st.queue
    · rw [if_pos hq] at hl
      have := Option.some.inj hl
      omega
    · rw [if_neg hq] at hl
      have := hinv.lvLt u l hl
      omega
  -- qUnlv
  · intro q hq
    obtain ⟨hq0, hlv0⟩ := hend.nqNew q hq
    rw [hend.lvChar q, if_neg hq0]
    exact hlv0
  -- lvPreds
  · intro u l hl e he ht
    rw [hend.lvChar u] at hl
    by_cases hq : u ∈ st.queue
    · rw [if_pos hq] at hl
      have hs := hinv.qPreds u hq e he ht
      cases hh : alGet st.levels e.src with
      | none =>
        rw [hh] at hs
        simp at hs
      | some m =>
        have hlt := hinv.lvLt e.src m hh
        refine ⟨m, hmono e.src m hh, ?_⟩
        have := Option.some.inj hl
        omega
    · rw [if_neg hq] at hl
      obtain ⟨m, hm, hlt⟩ := hinv.lvPreds u l hl e he ht
      exact ⟨m, hmono e.src m hm, hlt⟩
  -- waiting
  · intro u hu hnone hnq
    exact hend.unlvPred u hu hnone hnq (by simp)
  -- strict decrease of the unlevelled count
  · intro hne
    cases hq : st.queue with
    | nil => exact absurd hq hne
    | cons n0 rest =>
      have hn0 : n0 ∈ st.queue := by
        rw [hq]
        exact List.mem_cons_self _ _
      unfold unleveledCount
      refine countP_strict_lt ids _ _ ?_ n0 (hinv.qSub n0 hn0) ?_ ?_
      · intro a _ hp
        cases hh : alGet st.levels a with
        | none => rfl
        | some x =>
          rw [hmono a x hh] at hp
          simp at hp
      · rw [hinv.qUnlv n0 hn0]
        rfl
      · rw [hend.lvChar n0, if_pos hn0]
        rfl

theorem kahnLoop_inv (graph : List (Str × List Str)) (ids : List Str)
    (edges : List EdgeRec)
    (hgraph : ∀ u ∈ ids, alGet graph u = some (outNbrs edges u)) :
    ∀ (fuel : Nat) (st : KahnSt), KahnInv ids edges st →
      unleveledCount ids st.levels < fuel →
      (kahnLoop graph fuel st).queue = [] ∧
      KahnInv ids edges (kahnLoop graph fuel st) ∧
      (∀ u x, alGet st.levels u = some x →
        alGet (kahnLoop graph fuel st).levels u = some x) := by
  intro fuel
  induction fuel with
  | zero =>
    intro st _ h
    omega
  | succ f ih =>
    intro st hinv hcount
    by_cases hq : st.queue = []
    · rw [kahnLoop_empty graph (f + 1) st hq]
      exact ⟨hq, hinv, fun u x hx => hx⟩
    · have hstep := kahnIter_inv graph ids edges hgraph st hinv
      have hdec := hstep.2.2 hq
      have hrec := ih (kahnIter graph st) hstep.1 (by omega)
      have hunf : kahnLoop graph (f + 1) st = kahnLoop graph f (kahnIter graph st) := by
        simp [kahnLoop, hq]
      rw [hunf]
      exact ⟨hrec.1, hrec.2.1, fun u x hx => hrec.2.2 u x (hstep.2.1 u x hx)⟩

/-! ## The initial loop state -/

theorem alGet_map_fn {α : Type} (ids : List Str) (f : Str → α) (u : Str) :
    alGet (ids.map (fun i => (i, f i))) u = if u ∈ ids then some (f u) else none := by
  induction ids with
  | nil => simp [alGet]
  | cons i t ih =>
    by_cases h : i = u
    · subst h
      simp [alGet]
    · have h2 : ¬u = i := fun hh => h hh.symm
      simp [alGet, h, ih, h2]

theorem filterMap_guard {α : Type} (l : List α) (p : α → Bool) :
    l.filterMap (fun a => if p a then some a else none) = l.filter p := by
  induction l with
  | nil => rfl
  | cons a t ih =>
    by_cases h : p a <;> simp [List.filterMap_cons, List.filter_cons, h, ih]

theorem kahnInv_init (ids : List Str) (edges : List EdgeRec) (hnd : ids.Nodup)
    (hep : ∀ e ∈ edges, e.src ∈ ids ∧ e.tgt ∈ ids) :
    KahnInv ids edges
      ⟨[], edges.foldl (fun d e => degIncr d e.tgt) (buildDeg ids),
        (edges.foldl (fun d e => degIncr d e.tgt) (buildDeg ids)).filterMap
          (fun p => if p.2 = 0 then some p.1 else none), 0⟩ := by
  set deg0 := edges.foldl (fun d e => degIncr d e.tgt) (buildDeg ids) with hdeg0
  have hdkeys : deg0.map Prod.fst = ids := by
    rw [hdeg0, map_fst_foldl_degIncr, buildDeg_eq ids hnd, List.map_map]
    have hid : (Prod.fst ∘ fun i : Str => (i, (0 : Int))) = id := rfl
    rw [hid, List.map_id]
  have hdval : ∀ u, alGet deg0 u =
      if u ∈ ids then some ((inCount edges u : Int)) else none := by
    intro u
    rw [hdeg0, foldl_degIncr, buildDeg_eq ids hnd, alGet_map_const]
    by_cases h : u ∈ ids
    · rw [if_pos h, if_pos h]
      simp [inCount]
    · rw [if_neg h, if_neg h]
      rfl
  have hdeq : deg0 = ids.map (fun i => (i, (inCount edges i : Int))) := by
    refine assoc_ext _ _ ?_ ?_ ?_
    · rw [hdkeys, List.map_map]
      have hid : (Prod.fst ∘ fun i : Str => (i, (inCount edges i : Int))) = id := rfl
      rw [hid, List.map_id]
    · rw [hdkeys]
      exact hnd
    · intro u
      rw [hdval u, alGet_map_fn]
  have hqeq : deg0.filterMap (fun p => if p.2 = 0 then some p.1 else none) =
      ids.filter (fun i => decide ((inCount edges i : Int) = 0)) := by
    rw [hdeq, List.filterMap_map]
    have hcomp : ((fun p : Str × Int => if p.2 = 0 then some p.1 else none) ∘
        (fun i => (i, (inCount edges i : Int)))) =
        (fun i => if decide ((inCount edges i : Int) = 0) then some i else none) := by
      funext i
      by_cases h : (inCount edges i : Int) = 0 <;> simp [h]
    rw [hcomp, filterMap_guard]
  have hcl0 : ∀ u, clCount edges [] u = 0 := by
    intro u
    refine List.countP_eq_zero.2 ?_
    intro e _
    simp [leveled, alGet]
  have hqmem : ∀ q, q ∈ deg0.filterMap (fun p => if p.2 = 0 then some p.1 else none) ↔
      q ∈ ids ∧ inCount edges q = 0 := by
    intro q
    rw [hqeq, List.mem_filter]
    constructor
    · rintro ⟨h1, h2⟩
      refine ⟨h1, ?_⟩
      have := of_decide_eq_true h2
      omega
    · rintro ⟨h1, h2⟩
      refine ⟨h1, decide_eq_true ?_⟩
      omega
  refine ⟨hdkeys, ?_, ?_, ?_, ?_, ?_, ?_, ?_, ?_, ?_⟩
  -- degVal
  · intro u hu
    rw [hdval u, if_pos hu, hcl0 u]
    simp
  -- lvDom
  · intro u hu
    simp [alGet] at hu
  -- lvLt
  · intro u l hl
    simp [alGet] at hl
  -- qNodup
  · rw [hqeq]
    exact hnd.filter _
  -- qSub
  · intro q hq
    exact ((hqmem q).1 hq).1
  -- qUnlv
  · intro q _
    rfl
  -- qPreds
  · intro q hq e he ht
    have h0 := ((hqmem q).1 hq).2
    have : ∀ e2 ∈ edges, ¬(decide (e2.tgt = q) = true) := List.countP_eq_zero.1 h0
    exact absurd (decide_eq_true ht) (this e he)
  -- lvPreds
  · intro u l hl
    simp [alGet] at hl
  -- waiting
  · intro u hu hnone hq
    have h0 : inCount edges u ≠ 0 := by
      intro hz
      exact hq ((hqmem u).2 ⟨hu, hz⟩)
    by_contra hcon
    push_neg at hcon
    refine h0 (List.countP_eq_zero.2 ?_)
    intro e he hdec
    have ht := of_decide_eq_true hdec
    exact (hcon e he ht) rfl

/-- The adjacency dict built by `_calculate_node_levels` holds, at every
node id, exactly its successors in edge order. -/
theorem graph_spec (ids : List Str) (edges : List EdgeRec) (hnd : ids.Nodup) :
    ∀ u ∈ ids,
      alGet (edges.foldl (fun g e => adjAppend g e.src e.tgt) (buildAdj ids)) u =
        some (outNbrs edges u) := by
  intro u hu
  rw [foldl_adjAppend, buildAdj_eq ids hnd, alGet_map_const, if_pos hu]
  rfl

/-- The final dump changes nothing when every key is already levelled. -/
theorem dump_preserve (c : Nat) :
    ∀ (dlist : List (Str × Int)) (lv : List (Str × Nat)),
      (∀ p ∈ dlist, (alGet lv p.1).isSome) →
      dlist.foldl (fun lv p => if (alGet lv p.1).isNone then alSet lv p.1 c else lv) lv
        = lv := by
  intro dlist
  induction dlist with
  | nil => intro lv _; rfl
  | cons p t ih =>
    intro lv h
    have h1 : (alGet lv p.1).isNone = false := by
      have h2 := h p (List.mem_cons_self _ _)
      cases hh : alGet lv p.1
      · rw [hh] at h2
        simp at h2
      · rfl
    simp only [List.foldl_cons, h1, Bool.false_eq_true, if_neg, not_false_eq_true]
    exact ih lv (fun q hq => h q (List.mem_cons_of_mem p hq))

/-- Finitely many nodes each having a predecessor among themselves yield a
cycle. -/
theorem cycle_of_all_pred (R : List Str) (rel : Str → Str → Prop) (hne : R ≠ [])
    (h : ∀ u ∈ R, ∃ v, v ∈ R ∧ rel v u) : ∃ u, Relation.TransGen rel u u := by
  classical
  obtain ⟨r0, hr0⟩ := List.exists_mem_of_ne_nil R hne
  have hF : ∀ x : {x // x ∈ R}, ∃ y : {x // x ∈ R}, rel y.1 x.1 := by
    rintro ⟨u, hu⟩
    obtain ⟨v, hv, hrel⟩ := h u hu
    exact ⟨⟨v, hv⟩, hrel⟩
  choose F hFrel using hF
  set g : Nat → {x // x ∈ R} := fun n => F^[n] ⟨r0, hr0⟩ with hg
  have hstep : ∀ n, rel (g (n + 1)).1 (g n).1 := by
    intro n
    have h1 : g (n + 1) = F (g n) := Function.iterate_succ_apply' F n _
    rw [h1]
    exact hFrel (g n)
  have chain : ∀ i j, i < j → Relation.TransGen rel (g j).1 (g i).1 := by
    intro i j
    induction j with
    | zero => omega
    | succ j ihj =>
      intro hij
      by_cases hji : i = j
      · subst hji
        exact Relation.TransGen.single (hstep i)
      · have hij' : i < j := by omega
        exact Relation.TransGen.head (hstep j) (ihj hij')
  have hcard : R.toFinset.card < (Finset.range (R.toFinset.card + 1)).card := by
    simp
  have hmaps : ∀ n ∈ Finset.range (R.toFinset.card + 1), (g n).1 ∈ R.toFinset := by
    intro n _
    exact List.mem_toFinset.2 (g n).2
  obtain ⟨i, hi, j, hj, hne2, heq⟩ :=
    Finset.exists_ne_map_eq_of_card_lt_of_maps_to hcard hmaps
  rcases lt_or_gt_of_ne hne2 with hij | hij
  · have hc := chain i j hij
    rw [heq] at hc
    exact ⟨(g j).1, hc⟩
  · have hc := chain j i hij
    rw [← heq] at hc
    exact ⟨(g i).1, hc⟩

/-- A single edge between two distinct nodes is acyclic. -/
theorem acyclic_single (e : EdgeRec) (hne : e.src ≠ e.tgt) : AcyclicEdges [e] := by
  rintro ⟨u, hu⟩
  have hchar : ∀ a b, Relation.TransGen (EdgeRel [e]) a b → a = e.src ∧ b = e.tgt := by
    intro a b h
    induction h with
    | single h1 =>
      obtain ⟨e2, he2, h2, h3⟩ := h1
      simp at he2
      subst he2
      exact ⟨h2.symm, h3.symm⟩
    | tail h1 h2 ih =>
      obtain ⟨e2, he2, h3, h4⟩ := h2
      simp at he2
      subst he2
      obtain ⟨ha, hb⟩ := ih
      rw [hb] at h3
      exact absurd h3 hne
  obtain ⟨h1, h2⟩ := hchar u u hu
  rw [h1] at h2
  exact hne h2

/-! ## Claim C2: strict level increase on acyclic flowcharts -/

/-- C2: on every flowchart whose node ids are the extractor's pairwise
distinct generated ids, whose edges join existing node ids and whose edge
set is acyclic, the level assignment of `_calculate_node_levels` gives
every edge a source level strictly below its target level. -/
theorem C2_topological_leveling_strict (nodes : List NodeRec) (edges : List EdgeRec)
    (hnd : (nodes.map (fun n => n.id)).Nodup)
    (hep : ∀ e ∈ edges, e.src ∈ nodes.map (fun n => n.id) ∧
      e.tgt ∈ nodes.map (fun n => n.id))
    (hacyc : AcyclicEdges edges) :
    ∀ e ∈ edges, ∃ lu lv,
      alGet (calculate_node_levels nodes edges) e.src = some lu ∧
      alGet (calculate_node_levels nodes edges) e.tgt = some lv ∧ lu < lv := by
  set ids := nodes.map (fun n => n.id) with hids
  set graph := edges.foldl (fun g e => adjAppend g e.src e.tgt) (buildAdj ids)
    with hgraphdef
  set deg0 := edges.foldl (fun d e => degIncr d e.tgt) (buildDeg ids) with hdeg0
  set st0 : KahnSt :=
    ⟨[], deg0, deg0.filterMap (fun p => if p.2 = 0 then some p.1 else none), 0⟩
    with hst0
  have hinv0 : KahnInv ids edges st0 := kahnInv_init ids edges hnd hep
  have hgraph := graph_spec ids edges hnd
  have hcnt0 : unleveledCount ids st0.levels < ids.length + 1 := by
    have := List.countP_le_length
      (fun u => (alGet (st0.levels) u).isNone) (l := ids)
    unfold unleveledCount
    omega
  have hloop := kahnLoop_inv graph ids edges hgraph (ids.length + 1) st0 hinv0 hcnt0
  set stf := kahnLoop graph (ids.length + 1) st0 with hstf
  have hcore : calcLevelsCore nodes edges = stf := rfl
  have hinvf : KahnInv ids edges stf := hloop.2.1
  have hall : ∀ u ∈ ids, (alGet stf.levels u).isSome := by
    by_contra hcon
    push_neg at hcon
    obtain ⟨u0, hu0, hu0n⟩ := hcon
    have hu0none : alGet stf.levels u0 = none := by
      cases hh : alGet stf.levels u0
      · rfl
      · rw [hh] at hu0n
        exact absurd rfl hu0n
    set R := ids.filter (fun u => (alGet stf.levels u).isNone) with hR
    have hu0R : u0 ∈ R := by
      rw [hR, List.mem_filter]
      exact ⟨hu0, by rw [hu0none]; rfl⟩
    have hRne : R ≠ [] := List.ne_nil_of_mem hu0R
    have hpred : ∀ u ∈ R, ∃ v, v ∈ R ∧ EdgeRel edges v u := by
      intro u huR
      rw [hR, List.mem_filter] at huR
      obtain ⟨hu_ids, hu_unlv⟩ := huR
      have hu_none : alGet stf.levels u = none := by
        cases hh : alGet stf.levels u
        · rfl
        · rw [hh] at hu_unlv
          simp at hu_unlv
      obtain ⟨e, he, ht, hsrc⟩ := hinvf.waiting u hu_ids hu_none
        (by rw [hloop.1]; exact List.not_mem_nil u)
      refine ⟨e.src, ?_, ⟨e, he, rfl, ht⟩⟩
      rw [hR, List.mem_filter]
      exact ⟨(hep e he).1, by rw [hsrc]; rfl⟩
    exact hacyc (cycle_of_all_pred R (EdgeRel edges) hRne hpred)
  have hdump : calculate_node_levels nodes edges = stf.levels := by
    have h1 : calculate_node_levels nodes edges =
        stf.inDeg.foldl
          (fun lv p => if (alGet lv p.1).isNone then alSet lv p.1 stf.curLevel else lv)
          stf.levels := rfl
    rw [h1]
    refine dump_preserve stf.curLevel stf.inDeg stf.levels ?_
    intro p hp
    have hp1 : p.1 ∈ ids := by
      rw [← hinvf.degKeys]
      exact List.mem_map_of_mem Prod.fst hp
    exact hall p.1 hp1
  intro e he
  have ht_ids : e.tgt ∈ ids := (hep e he).2
  obtain ⟨l, hl⟩ := Option.isSome_iff_exists.1 (hall e.tgt ht_ids)
  obtain ⟨m, hm, hlt⟩ := hinvf.lvPreds e.tgt l hl e he rfl
  rw [hdump]
  exact ⟨m, l, hm, hl, hlt⟩

/-- A concrete acyclic two-node instance for the witness. -/
def wNodeA : NodeRec := ⟨"node1".data, "A".data, bareNodeStyle⟩

def wNodeB : NodeRec := ⟨"node2".data, "B".data, bareNodeStyle⟩

def wEdgeAB : EdgeRec := ⟨"edge1".data, "node1".data, "node2".data, [], "solid".data⟩

/-- Witness for C2 at the concrete one-edge flowchart. -/
theorem C2_topological_leveling_strict_witness :
    ∃ lu lv,
      alGet (calculate_node_levels [wNodeA, wNodeB] [wEdgeAB]) "node1".data = some lu ∧
      alGet (calculate_node_levels [wNodeA, wNodeB] [wEdgeAB]) "node2".data = some lv ∧
      lu < lv :=
  C2_topological_leveling_strict [wNodeA, wNodeB] [wEdgeAB] (by decide) (by decide)
    (acyclic_single wEdgeAB (by decide)) wEdgeAB (by simp)

/-! ## Injectivity of the generated ids -/

theorem natStrAux_acc (n : Nat) : ∀ f acc, n < f → natStrAux f n acc = natStr n ++ acc := by
  induction n using Nat.strong_induction_on with
  | _ n ih =>
    intro f acc hf
    cases f with
    | zero => omega
    | succ f =>
      by_cases h10 : n < 10
      · simp only [natStrAux, if_pos h10, natStr, if_pos h10]
        rfl
      · have hdiv : n / 10 < n := Nat.div_lt_self (by omega) (by norm_num)
        have hlhs : natStrAux (f + 1) n acc =
            natStrAux f (n / 10) (digitChar (n % 10) :: acc) := by
          simp only [natStrAux, if_neg h10]
        have hrhs : natStr n = natStrAux n (n / 10) [digitChar (n % 10)] := by
          have hn : n + 1 = n + 1 := rfl
          simp only [natStr, natStrAux, if_neg h10]
        rw [hlhs, hrhs]
        rw [ih (n / 10) hdiv f (digitChar (n % 10) :: acc) (by omega)]
        rw [ih (n / 10) hdiv n [digitChar (n % 10)] (by omega)]
        simp

theorem charVal_digitChar : ∀ d, d < 10 → charVal (digitChar d) = d := by decide

theorem digitsVal_append_digit (xs : Str) (c : Char) :
    digitsVal (xs ++ [c]) = digitsVal xs * 10 + charVal c := by
  unfold digitsVal
  rw [List.foldl_append]
  rfl

theorem digitsVal_natStr (n : Nat) : digitsVal (natStr n) = n := by
  induction n using Nat.strong_induction_on with
  | _ n ih =>
    by_cases h10 : n < 10
    · have h1 : natStr n = [digitChar n] := by
        simp only [natStr, natStrAux, if_pos h10]
        rw [Nat.mod_eq_of_lt h10]
      rw [h1]
      unfold digitsVal
      simp [charVal_digitChar n h10]
    · have hdiv : n / 10 < n := Nat.div_lt_self (by omega) (by norm_num)
      have h1 : natStr n = natStr (n / 10) ++ [digitChar (n % 10)] := by
        have h2 : natStr n = natStrAux n (n / 10) [digitChar (n % 10)] := by
          simp only [natStr, natStrAux, if_neg h10]
        rw [h2, natStrAux_acc (n / 10) n _ (by omega)]
      rw [h1, digitsVal_append_digit, ih (n / 10) hdiv,
        charVal_digitChar (n % 10) (by omega)]
      omega

theorem natStr_inj {a b : Nat} (h : natStr a = natStr b) : a = b := by
  have h1 := digitsVal_natStr a
  rw [h, digitsVal_natStr b] at h1
  exact h1.symm

theorem mkNodeId_inj {a b : Nat} (h : mkNodeId a = mkNodeId b) : a = b := by
  unfold mkNodeId at h
  exact natStr_inj (List.append_cancel_left h)

theorem mkNodeId_injective : Function.Injective mkNodeId := fun _ _ h => mkNodeId_inj h

/-! ## Claim C5: shape classifier totality and idempotence -/

theorem strBegins_length {s p : Str} (h : strBegins s p = true) : p.length ≤ s.length := by
  induction p generalizing s with
  | nil => simp
  | cons c q ih =>
    cases s with
    | nil => simp [strBegins] at h
    | cons d r =>
      simp only [strBegins, Bool.and_eq_true] at h
      have := ih h.2
      simp only [List.length_cons]
      omega

theorem strEnds_length {s p : Str} (h : strEnds s p = true) : p.length ≤ s.length := by
  unfold strEnds at h
  have := strBegins_length h
  simpa using this

/-- A token matched by one of the delimiter tests strips to a strictly
shorter label. -/
theorem parse_node_shape_shrink (t : Str) (h : delimMatch t = true) :
    (parse_node_shape t).1.length < t.length := by
  unfold parse_node_shape
  split_ifs with h1 h2 h3 h4 h5 h6 h7 h8
  · have := strBegins_length (p := "[[".data) h1.1
    simp at this ⊢
    omega
  · have := strBegins_length (p := "\x7b\x7b".data) h2.1
    simp at this ⊢
    omega
  · have := strBegins_length (p := "((".data) h3.1
    simp at this ⊢
    omega
  · have := strBegins_length (p := "[(".data) h4.1
    simp at this ⊢
    omega
  · have := strBegins_length (p := ">".data) h5.1
    simp at this ⊢
    omega
  · have := strBegins_length (p := "[".data) h6.1
    simp at this ⊢
    omega
  · have := strBegins_length (p := "(".data) h7.1
    simp at this ⊢
    omega
  · have := strBegins_length (p := "\x7b".data) h8.1
    simp at this ⊢
    omega
  · exfalso
    unfold delimMatch at h
    simp only [Bool.or_eq_true, Bool.and_eq_true] at h
    rcases h with ((((((h | h) | h) | h) | h) | h) | h) | h
    · exact h1 ⟨h.1, h.2⟩
    · exact h2 ⟨h.1, h.2⟩
    · exact h3 ⟨h.1, h.2⟩
    · exact h4 ⟨h.1, h.2⟩
    · exact h5 ⟨h.1, h.2⟩
    · exact h6 ⟨h.1, h.2⟩
    · exact h7 ⟨h.1, h.2⟩
    · exact h8 ⟨h.1, h.2⟩

/-- A token matched by no delimiter test is returned verbatim. -/
theorem parse_node_shape_fix (t : Str) (h : delimMatch t = false) :
    (parse_node_shape t).1 = t := by
  unfold parse_node_shape
  split_ifs with h1 h2 h3 h4 h5 h6 h7 h8
  · simp [delimMatch, h1.1, h1.2] at h
  · simp [delimMatch, h2.1, h2.2] at h
  · simp [delimMatch, h3.1, h3.2] at h
  · simp [delimMatch, h4.1, h4.2] at h
  · simp [delimMatch, h5.1, h5.2] at h
  · simp [delimMatch, h6.1, h6.2] at h
  · simp [delimMatch, h7.1, h7.2] at h
  · simp [delimMatch, h8.1, h8.2] at h
  · rfl

/-- C5 counterexample: the diamond token `{(a)}` strips to the label
`(a)`, and a second application of the classifier strips that label
further to `a`, so the classifier is not idempotent on labels. -/
theorem C5_idempotence_counterexample :
    (parse_node_shape ((parse_node_shape "\x7b(a)\x7d".data).1)).1 ≠
      (parse_node_shape "\x7b(a)\x7d".data).1 := by decide

/-- C5 amended: the classifier is total (always returns a label and a
style), and it is idempotent on the label it produced exactly when that
label itself matches none of the delimiter tests (a label such as `(a)`,
produced from `{(a)}`, is stripped further). -/
theorem C5_shape_classifier_total_and_conditionally_idempotent (t : Str) :
    (∃ l s, parse_node_shape t = (l, s)) ∧
    ((parse_node_shape ((parse_node_shape t).1)).1 = (parse_node_shape t).1 ↔
      delimMatch ((parse_node_shape t).1) = false) := by
  refine ⟨⟨(parse_node_shape t).1, (parse_node_shape t).2, rfl⟩, ?_, ?_⟩
  · intro h
    cases hd : delimMatch ((parse_node_shape t).1)
    · rfl
    · have hlt := parse_node_shape_shrink _ hd
      rw [h] at hlt
      omega
  · intro h
    exact parse_node_shape_fix _ h

/-! ## Claim C1: the round-trip scenario -/

/-- C1: on the source `graph TD / A[Start] --> B{Decide} / B -->|yes| C(End)`
the extractor produces exactly the three nodes A, B, C with ids node1,
node2, node3, labels "Start", "Decide", "End" and rectangle, diamond
(rhombus) and ellipse styles, and exactly two edges whose labels are ""
and "yes"; the level computation then assigns A level 0, B level 1 and C
level 2. -/
theorem C1_round_trip_scenario :
    roundFlow.nodes.map (fun p => (p.1, p.2.id, p.2.label, p.2.style)) =
      [("A".data, "node1".data, "Start".data, "rounded=1;".data ++ baseNodeStyle),
       ("B".data, "node2".data, "Decide".data,
         "rhombus;fillColor=#fff2cc;strokeColor=#d6b656;".data ++ baseNodeStyle),
       ("C".data, "node3".data, "End".data,
         "ellipse;fillColor=#ffe6cc;strokeColor=#d79b00;".data ++ baseNodeStyle)] ∧
    roundFlow.edges.map (fun e => e.label) = [[], "yes".data] ∧
    calculate_node_levels (roundFlow.nodes.map (fun p => p.2)) roundFlow.edges =
      [("node1".data, 0), ("node2".data, 1), ("node3".data, 2)] := by
  exact ⟨by decide, by decide, by decide⟩

/-! ## Claim C6: the node-upgrade policy -/

theorem registerFlowNode_preserve (st : FlowSt) (nm : Str) (sh : Option Str)
    (n : Str) (r : NodeRec) (hget : alGet st.nodes n = some r) (hne : r.label ≠ n) :
    alGet (registerFlowNode st nm sh).nodes n = some r := by
  unfold registerFlowNode
  cases hnm : alGet st.nodes nm with
  | none =>
    cases sh with
    | none => exact alGet_append_left _ hget
    | some s => exact alGet_append_left _ hget
  | some r2 =>
    cases sh with
    | none => exact hget
    | some s =>
      by_cases hlab : r2.label = nm
      · simp only [if_pos hlab]
        show alGet (alSet st.nodes nm _) n = some r
        rw [alGet_alSet]
        by_cases hnmn : nm = n
        · subst hnmn
          rw [hnm] at hget
          have hr : r2 = r := Option.some.inj hget
          subst hr
          exact absurd hlab hne
        · rw [if_neg hnmn]
          exact hget
      · simp only [if_neg hlab]
        exact hget

theorem flowStep_preserve (st : FlowSt) (line : Str) (n : Str) (r : NodeRec)
    (hget : alGet st.nodes n = some r) (hne : r.label ≠ n) :
    alGet (flowStep st line).nodes n = some r := by
  unfold flowStep
  dsimp only
  by_cases hh : (strBegins (pyStrip line) "graph".data ||
      strBegins (pyStrip line) "flowchart".data) = true
  · rw [if_pos hh]
    exact hget
  · rw [if_neg hh]
    by_cases hb : pyStrip line = []
    · rw [if_pos hb]
      exact hget
    · rw [if_neg hb]
      split
      · exact registerFlowNode_preserve _ _ _ _ _
          (registerFlowNode_preserve _ _ _ _ _ hget hne) hne
      · split
        · split
          · exact alGet_append_left _ hget
          · exact hget
        · exact hget

/-- C6 amended: a node first referenced without a shape token gets its own
name as label, and a later shape token replaces label and style in place
only while the label still equals the bare name; hence once a node's label
differs from its bare name, no later line changes its record — but when
the first shape-bearing occurrence strips to the bare name itself (as in
`A[A]`), a later shape-bearing occurrence does override it. -/
theorem C6_upgrade_only_while_bare (lines : List Str) (st : FlowSt) (n : Str)
    (r : NodeRec) (hget : alGet st.nodes n = some r) (hne : r.label ≠ n) :
    alGet ((lines.foldl flowStep st).nodes) n = some r := by
  induction lines generalizing st with
  | nil => exact hget
  | cons l ls ih =>
    simp only [List.foldl_cons]
    exact ih (flowStep st l) (flowStep_preserve st l n r hget hne)

/-- Witness for C6 at a concrete upgraded state: a later `A{X}` line does
not change A's record once its label reads `Start`. -/
theorem C6_upgrade_only_while_bare_witness :
    alGet ((["A\x7bX\x7d --> B".data].foldl flowStep upgradedFlowSt).nodes) "A".data =
      some upgradedARec :=
  C6_upgrade_only_while_bare ["A\x7bX\x7d --> B".data] upgradedFlowSt "A".data
    upgradedARec (by decide) (by decide)

/-- C6 counterexample: in `A[A] --> B` then `A{X} --> B` the first
shape-bearing occurrence (`[A]`, a rectangle labelled `A`) does not
determine the final record — the second occurrence overrides it to the
diamond labelled `X`, because the first stripped label equals the bare
name. -/
theorem C6_first_shape_wins_counterexample :
    (alGet (parse_mermaid_flowchart overrideSrc).nodes "A".data).map
        (fun r => (r.label, r.style)) =
      some ("X".data,
        "rhombus;fillColor=#fff2cc;strokeColor=#d6b656;".data ++ baseNodeStyle) ∧
    parse_node_shape "[A]".data = ("A".data, "rounded=1;".data ++ baseNodeStyle) :=
  ⟨by decide, by decide⟩

/-! ## Claim C3: the two-node cycle -/

/-- C3: on the cycle `A --> B`, `B --> A` the frontier loop stops at once
for every amount of fuel (its initial frontier is empty, so the Python
`while` loop terminates immediately), the level number reached is 0, and
the dump pass then assigns that same final level 0 to both A (id node1)
and B (id node2). -/
theorem C3_cycle_dump_policy :
    (∀ f, kahnLoop cycleAdj f cycleInit = cycleInit) ∧
    calcLevelsCore cycleNodes cycleFlow.edges = cycleInit ∧
    (calcLevelsCore cycleNodes cycleFlow.edges).curLevel = 0 ∧
    (alGet cycleFlow.nodes "A".data).map (fun r => r.id) = some "node1".data ∧
    (alGet cycleFlow.nodes "B".data).map (fun r => r.id) = some "node2".data ∧
    alGet (calculate_node_levels cycleNodes cycleFlow.edges) "node1".data = some 0 ∧
    alGet (calculate_node_levels cycleNodes cycleFlow.edges) "node2".data = some 0 := by
  refine ⟨fun f => kahnLoop_empty _ f _ (by decide), by decide, by decide,
    by decide, by decide, by decide, by decide⟩

/-! ## Claim C7: ER relationship recognition -/

/-- Prefix tests compose: a string beginning with `p` begins with every
prefix of `p`. -/
theorem strBegins_trans (s p q : Str) (h1 : strBegins s p = true)
    (h2 : strBegins p q = true) : strBegins s q = true := by
  induction q generalizing s p with
  | nil => cases s <;> rfl
  | cons c q ih =>
    cases p with
    | nil => simp [strBegins] at h2
    | cons d p =>
      cases s with
      | nil => simp [strBegins] at h1
      | cons e s =>
        simp only [strBegins, Bool.and_eq_true, decide_eq_true_eq] at h1 h2 ⊢
        exact ⟨h1.1.trans h2.1, ih s p h1.2 h2.2⟩

/-- Containment is monotone under prefix shortening: a line containing
`p` contains every prefix of `p`. -/
theorem strContains_mono (l p q : Str) (h1 : strContains l p = true)
    (h2 : strBegins p q = true) : strContains l q = true := by
  induction l with
  | nil =>
    simp only [strContains] at h1 ⊢
    exact strBegins_trans [] p q h1 h2
  | cons c r ih =>
    simp only [strContains, Bool.or_eq_true] at h1 ⊢
    rcases h1 with h1 | h1
    · exact Or.inl (strBegins_trans _ _ _ h1 h2)
    · exact Or.inr (ih h1)

/-- A line failing the entity-branch guard satisfies the
relationship-branch guard: each of the three entity-branch trigger
substrings is covered by one of the six relationship triggers (in
particular a line containing the `zero-or-one to many` marker contains
its prefix used by the relationship guard). -/
theorem erRelGuard_of_entityGuard_false (l : Str) (h : erEntityGuard l = false) :
    erRelGuard l = true := by
  unfold erEntityGuard at h
  have h2 := congrArg (fun b => !b) h
  simp only [Bool.not_not, Bool.not_false] at h2
  rw [Bool.or_eq_true, Bool.or_eq_true] at h2
  unfold erRelGuard
  simp only [Bool.or_eq_true]
  rcases h2 with (h1 | h1) | h1
  · exact Or.inl (Or.inl (Or.inl (Or.inl (Or.inl h1))))
  · exact Or.inl (Or.inl (Or.inl (Or.inl (Or.inr h1))))
  · exact Or.inl (Or.inl (Or.inl (Or.inr (strContains_mono l _ _ h1 (by decide)))))

/-- C7 (amended): when the ER extractor is outside an entity block and
the stripped line is non-empty, is not the header, does not open or close
a block, fails the entity-branch trigger test, and the relationship
pattern finds a match `m` in it, then exactly one relationship record is
appended, carrying the matched label and the style derived from the
matched cardinality marker, and both matched entity names end up
registered in the entity map. -/
theorem C7_er_relationship_amended (st : ERSt) (raw : Str) (m : ERMatch)
    (hne : pyStrip raw ≠ [])
    (hhdr : strBegins (pyStrip raw) "erDiagram".data = false)
    (hbr : strEnds (pyStrip raw) "\x7b".data = false)
    (hcl : pyStrip raw ≠ "\x7d".data)
    (hblock : st.inBlock = false)
    (hent : erEntityGuard (pyStrip raw) = false)
    (hm : searchERRel (pyStrip raw) = some m) :
    (∃ fid tid,
      (erStep st raw).rels = st.rels ++
        [EdgeRec.mk (mkEdgeId st.edgeCtr) fid tid m.g4
          (parse_er_relationship_style m.g2)]) ∧
    (alGet (erStep st raw).ents m.g1).isSome = true ∧
    (alGet (erStep st raw).ents m.g3).isSome = true := by
  have hrel : erRelGuard (pyStrip raw) = true := erRelGuard_of_entityGuard_false _ hent
  unfold erStep
  dsimp only
  rw [decide_eq_false hne, hhdr, Bool.or_self]
  rw [if_neg Bool.false_ne_true]
  rw [hbr]
  rw [if_neg Bool.false_ne_true]
  rw [if_neg hcl]
  rw [hblock, Bool.false_and]
  rw [if_neg Bool.false_ne_true]
  rw [hent, Bool.and_false]
  rw [if_neg Bool.false_ne_true]
  rw [hrel]
  rw [if_pos rfl]
  rw [hm]
  dsimp only
  cases hg1 : alGet st.ents m.g1 with
  | none =>
    dsimp only
    cases hg3 : alGet (st.ents ++ [(m.g1, EntRec.mk (mkNodeId st.nodeCtr) m.g1 [])]) m.g3 with
    | none =>
      dsimp only
      refine ⟨⟨_, _, rfl⟩, ?_, ?_⟩
      · have h2 : alGet (st.ents ++ [(m.g1, EntRec.mk (mkNodeId st.nodeCtr) m.g1 [])]) m.g1 =
            some (EntRec.mk (mkNodeId st.nodeCtr) m.g1 []) := by
          rw [alGet_append_right _ hg1]
          simp [alGet]
        rw [alGet_append_left _ h2]
        rfl
      · rw [alGet_append_right _ hg3]
        simp [alGet]
    | some r3 =>
      dsimp only
      refine ⟨⟨_, _, rfl⟩, ?_, ?_⟩
      · rw [alGet_append_right _ hg1]
        simp [alGet]
      · rw [hg3]
        rfl
  | some r1 =>
    dsimp only
    cases hg3 : alGet st.ents m.g3 with
    | none =>
      dsimp only
      refine ⟨⟨_, _, rfl⟩, ?_, ?_⟩
      · rw [alGet_append_left _ hg1]
        rfl
      · rw [alGet_append_right _ hg3]
        simp [alGet]
    | some r3 =>
      dsimp only
      refine ⟨⟨_, _, rfl⟩, ?_, ?_⟩
      · rw [hg1]
        rfl
      · rw [hg3]
        rfl

/-- Witness for the amended C7 at a concrete state and line: processing
`USER ||--o\x7b ORDER : places` from the initial state appends the
`places` relationship and registers both `USER` and `ORDER`. -/
theorem C7_er_relationship_amended_witness :
    (∃ fid tid,
      (erStep erInit oneZeroManyLine).rels = erInit.rels ++
        [EdgeRec.mk (mkEdgeId erInit.edgeCtr) fid tid oneZeroManyMatch.g4
          (parse_er_relationship_style oneZeroManyMatch.g2)]) ∧
    (alGet (erStep erInit oneZeroManyLine).ents oneZeroManyMatch.g1).isSome = true ∧
    (alGet (erStep erInit oneZeroManyLine).ents oneZeroManyMatch.g3).isSome = true :=
  C7_er_relationship_amended erInit oneZeroManyLine oneZeroManyMatch (by decide) (by decide)
    (by decide) (by decide) (by decide) (by decide) (by decide)

/-- C7 counterexample: the line `A \x7d|--|\x7b B : r` has the claimed
form (both cardinality marker pairs drawn from the four marker symbols,
two dashes between them), yet the ER extractor produces neither a
relationship nor any entity: the entity-declaration branch's guard checks
only three hard-coded substrings, none of which occurs here, so the line
is treated as an entity declaration, its name is rejected for containing
`--`, and the loop moves on before the relationship branch can run. -/
theorem C7_er_relationship_counterexample :
    (parse_mermaid_er manyManySrc).ents = [] ∧ (parse_mermaid_er manyManySrc).rels = [] :=
  ⟨by decide, by decide⟩

/-! ## Claim C4: flowchart id invariants -/

/-- A successful dict lookup comes from a pair of the list. -/
theorem alGet_mem {α : Type} {l : List (Str × α)} {k : Str} {v : α}
    (h : alGet l k = some v) : (k, v) ∈ l := by
  induction l with
  | nil => simp [alGet] at h
  | cons hd t ih =>
    obtain ⟨k0, v0⟩ := hd
    by_cases hk : k0 = k
    · rw [alGet, if_pos hk] at h
      obtain rfl := Option.some_injective _ h
      subst hk
      exact List.mem_cons_self _ _
    · rw [alGet, if_neg hk] at h
      exact List.mem_cons_of_mem _ (ih h)

/-- In-place overwrite of an existing key preserves any per-pair map that
agrees on the replaced pair. -/
theorem map_alSet_of_get {α β : Type} (f : Str × α → β) {l : List (Str × α)} {k : Str}
    (v : α) {r : α} (h : alGet l k = some r) (hf : f (k, v) = f (k, r)) :
    (alSet l k v).map f = l.map f := by
  induction l with
  | nil => simp [alGet] at h
  | cons hd t ih =>
    obtain ⟨k0, v0⟩ := hd
    by_cases hk : k0 = k
    · subst hk
      rw [alGet, if_pos rfl] at h
      obtain rfl := Option.some_injective _ h
      rw [alSet, if_pos rfl, List.map_cons, List.map_cons, hf]
    · rw [alGet, if_neg hk] at h
      rw [alSet, if_neg hk, List.map_cons, List.map_cons, ih h]

/-- `range'` from 1 grows on the right by the successor. -/
theorem range1_concat (n : Nat) :
    List.range' 1 (n + 1) = List.range' 1 n ++ [n + 1] := by
  rw [List.range'_concat]
  simp [Nat.add_comm]

/-- Appending a fresh node whose id is the current counter value keeps the
id bookkeeping invariant. -/
theorem nodesIdSpec_snoc {st : FlowSt} (name lab sty : Str)
    (h : nodesIdSpec st) (hg : alGet st.nodes name = none) :
    nodesIdSpec { st with
      nodes := st.nodes ++ [(name, NodeRec.mk (mkNodeId st.nodeCtr) lab sty)],
      nodeCtr := st.nodeCtr + 1 } := by
  obtain ⟨hids, hctr, hnd⟩ := h
  have hnotin : name ∉ st.nodes.map Prod.fst := (alGet_eq_none_iff _ _).mp hg
  refine ⟨?_, ?_, ?_⟩
  · show (st.nodes ++ [(name, NodeRec.mk (mkNodeId st.nodeCtr) lab sty)]).map
        (fun p => p.2.id) =
      (List.range' 1 (st.nodes ++ [(name, NodeRec.mk (mkNodeId st.nodeCtr) lab sty)]).length).map
        mkNodeId
    rw [List.map_append, List.length_append, List.length_singleton, hids]
    show _ ++ [mkNodeId st.nodeCtr] = _
    rw [hctr, range1_concat, List.map_append, List.map_singleton]
  · show st.nodeCtr + 1 = (st.nodes ++ [_]).length + 1
    rw [List.length_append, List.length_singleton, hctr]
  · show ((st.nodes ++ [(name, NodeRec.mk (mkNodeId st.nodeCtr) lab sty)]).map Prod.fst).Nodup
    rw [List.map_append]
    exact List.nodup_append.mpr
      ⟨hnd, List.nodup_singleton _, List.disjoint_singleton.mpr hnotin⟩

/-- `registerFlowNode` keeps the id bookkeeping, never touches the edges,
only extends the set of record ids and of registered names, and leaves
the registered name present. -/
theorem registerFlowNode_idSpec (st : FlowSt) (name : Str) (shape : Option Str)
    (h : nodesIdSpec st) :
    nodesIdSpec (registerFlowNode st name shape) ∧
    (registerFlowNode st name shape).edges = st.edges ∧
    (∀ x, x ∈ st.nodes.map (fun p => p.2.id) →
      x ∈ (registerFlowNode st name shape).nodes.map (fun p => p.2.id)) ∧
    (∀ k, (alGet st.nodes k).isSome = true →
      (alGet (registerFlowNode st name shape).nodes k).isSome = true) ∧
    (alGet (registerFlowNode st name shape).nodes name).isSome = true := by
  unfold registerFlowNode
  cases hg : alGet st.nodes name with
  | none =>
    cases shape with
    | none =>
      dsimp only
      refine ⟨nodesIdSpec_snoc name name bareNodeStyle h hg, rfl, ?_, ?_, ?_⟩
      · intro x hx
        rw [List.map_append]
        exact List.mem_append_left _ hx
      · intro k hk
        obtain ⟨v, hv⟩ := Option.isSome_iff_exists.mp hk
        rw [alGet_append_left _ hv]
        rfl
      · rw [alGet_append_right _ hg]
        simp [alGet]
    | some sh =>
      dsimp only
      refine ⟨nodesIdSpec_snoc name (parse_node_shape sh).1 (parse_node_shape sh).2 h hg,
        rfl, ?_, ?_, ?_⟩
      · intro x hx
        rw [List.map_append]
        exact List.mem_append_left _ hx
      · intro k hk
        obtain ⟨v, hv⟩ := Option.isSome_iff_exists.mp hk
        rw [alGet_append_left _ hv]
        rfl
      · rw [alGet_append_right _ hg]
        simp [alGet]
  | some r =>
    cases shape with
    | none =>
      dsimp only
      exact ⟨h, rfl, fun x hx => hx, fun k hk => hk, by rw [hg]; rfl⟩
    | some sh =>
      dsimp only
      by_cases hl : r.label = name
      · rw [if_pos hl]
        obtain ⟨hids, hctr, hnd⟩ := h
        have hmapid : (alSet st.nodes name
              (NodeRec.mk r.id (parse_node_shape sh).1 (parse_node_shape sh).2)).map
              (fun p => p.2.id) = st.nodes.map (fun p => p.2.id) :=
          map_alSet_of_get _ _ hg rfl
        have hmapfst : (alSet st.nodes name
              (NodeRec.mk r.id (parse_node_shape sh).1 (parse_node_shape sh).2)).map
              Prod.fst = st.nodes.map Prod.fst :=
          map_alSet_of_get _ _ hg rfl
        have hlen : (alSet st.nodes name
              (NodeRec.mk r.id (parse_node_shape sh).1 (parse_node_shape sh).2)).length =
            st.nodes.length := by
          have := congrArg List.length hmapfst
          rwa [List.length_map, List.length_map] at this
        refine ⟨⟨?_, ?_, ?_⟩, rfl, ?_, ?_, ?_⟩
        · show (alSet st.nodes name _).map (fun p => p.2.id) = _
          rw [hmapid, hlen]
          exact hids
        · show st.nodeCtr = (alSet st.nodes name _).length + 1
          rw [hlen]
          exact hctr
        · show ((alSet st.nodes name _).map Prod.fst).Nodup
          rw [hmapfst]
          exact hnd
        · intro x hx
          show x ∈ (alSet st.nodes name _).map (fun p => p.2.id)
          rw [hmapid]
          exact hx
        · intro k hk
          show (alGet (alSet st.nodes name _) k).isSome = true
          rw [alGet_alSet]
          by_cases hnk : name = k
          · rw [if_pos hnk]
            rfl
          · rw [if_neg hnk]
            exact hk
        · show (alGet (alSet st.nodes name _) name).isSome = true
          rw [alGet_alSet, if_pos rfl]
          rfl
      · rw [if_neg hl]
        exact ⟨h, rfl, fun x hx => hx, fun k hk => hk, by rw [hg]; rfl⟩

/-- One flowchart loop iteration preserves the full id invariant. -/
theorem flowStep_idSpec (st : FlowSt) (raw : Str) (h : FlowIdSpec st) :
    FlowIdSpec (flowStep st raw) := by
  unfold flowStep
  dsimp only
  by_cases hb1 : (strBegins (pyStrip raw) "graph".data ||
      strBegins (pyStrip raw) "flowchart".data) = true
  · rw [if_pos hb1]
    exact h
  · rw [if_neg hb1]
    by_cases hb2 : pyStrip raw = []
    · rw [if_pos hb2]
      exact h
    · rw [if_neg hb2]
      cases hse : searchEL (pyStrip raw) with
      | none =>
        dsimp only
        cases hsa : searchArrow (pyStrip raw) with
        | some m =>
          dsimp only
          obtain ⟨hn1, he1, hm1, hk1, hs1⟩ := registerFlowNode_idSpec st m.g1 m.g2 h.1
          obtain ⟨hn2, he2, hm2, hk2, hs2⟩ :=
            registerFlowNode_idSpec (registerFlowNode st m.g1 m.g2) m.g4 m.g5 hn1
          obtain ⟨r1, hr1⟩ := Option.isSome_iff_exists.mp (hk2 _ hs1)
          obtain ⟨r4, hr4⟩ := Option.isSome_iff_exists.mp hs2
          rw [hr1, hr4]
          dsimp only
          refine ⟨hn2, ?_⟩
          intro e he
          dsimp only at he
          rcases List.mem_append.mp he with he | he
          · rw [he2, he1] at he
            obtain ⟨hsrc, htgt⟩ := h.2 e he
            exact ⟨hm2 _ (hm1 _ hsrc), hm2 _ (hm1 _ htgt)⟩
          · obtain rfl := List.mem_singleton.mp he
            exact ⟨List.mem_map_of_mem _ (alGet_mem hr1),
              List.mem_map_of_mem _ (alGet_mem hr4)⟩
        | none =>
          dsimp only
          cases hss : searchStandalone (pyStrip raw) with
          | none => exact h
          | some ns =>
            dsimp only
            cases hgn : alGet st.nodes ns.1 with
            | some r => exact h
            | none =>
              dsimp only
              refine ⟨nodesIdSpec_snoc ns.1 (parse_node_shape ns.2).1
                (parse_node_shape ns.2).2 h.1 hgn, ?_⟩
              intro e he
              dsimp only at he
              obtain ⟨hsrc, htgt⟩ := h.2 e he
              rw [List.map_append]
              exact ⟨List.mem_append_left _ hsrc, List.mem_append_left _ htgt⟩
      | some arLbl =>
        dsimp only
        cases hsa : searchArrow (subEL arLbl.1 (pyStrip raw)) with
        | some m =>
          dsimp only
          obtain ⟨hn1, he1, hm1, hk1, hs1⟩ := registerFlowNode_idSpec st m.g1 m.g2 h.1
          obtain ⟨hn2, he2, hm2, hk2, hs2⟩ :=
            registerFlowNode_idSpec (registerFlowNode st m.g1 m.g2) m.g4 m.g5 hn1
          obtain ⟨r1, hr1⟩ := Option.isSome_iff_exists.mp (hk2 _ hs1)
          obtain ⟨r4, hr4⟩ := Option.isSome_iff_exists.mp hs2
          rw [hr1, hr4]
          dsimp only
          refine ⟨hn2, ?_⟩
          intro e he
          dsimp only at he
          rcases List.mem_append.mp he with he | he
          · rw [he2, he1] at he
            obtain ⟨hsrc, htgt⟩ := h.2 e he
            exact ⟨hm2 _ (hm1 _ hsrc), hm2 _ (hm1 _ htgt)⟩
          · obtain rfl := List.mem_singleton.mp he
            exact ⟨List.mem_map_of_mem _ (alGet_mem hr1),
              List.mem_map_of_mem _ (alGet_mem hr4)⟩
        | none =>
          dsimp only
          cases hss : searchStandalone (subEL arLbl.1 (pyStrip raw)) with
          | none => exact h
          | some ns =>
            dsimp only
            cases hgn : alGet st.nodes ns.1 with
            | some r => exact h
            | none =>
              dsimp only
              refine ⟨nodesIdSpec_snoc ns.1 (parse_node_shape ns.2).1
                (parse_node_shape ns.2).2 h.1 hgn, ?_⟩
              intro e he
              dsimp only at he
              obtain ⟨hsrc, htgt⟩ := h.2 e he
              rw [List.map_append]
              exact ⟨List.mem_append_left _ hsrc, List.mem_append_left _ htgt⟩

/-- The id invariant survives any run of the flowchart line loop. -/
theorem flowFold_idSpec (lines : List Str) (st : FlowSt) (h : FlowIdSpec st) :
    FlowIdSpec (lines.foldl flowStep st) := by
  induction lines generalizing st with
  | nil => exact h
  | cons l t ih => exact ih _ (flowStep_idSpec st l h)

/-- The freshly reset starting state satisfies the id invariant. -/
theorem flowIdSpec_init : FlowIdSpec flowInit :=
  ⟨⟨rfl, rfl, List.nodup_nil⟩, fun e he => absurd he (List.not_mem_nil e)⟩

/-- C4: on every flowchart source the extractor's node records carry the
generated ids `node1 … nodeN` in first-seen order, those ids and the node
names are pairwise distinct, and every extracted edge's source and target
id is the id of one of the node records. -/
theorem C4_flowchart_id_invariants (src : Str) :
    (parse_mermaid_flowchart src).nodes.map (fun p => p.2.id) =
      (List.range' 1 (parse_mermaid_flowchart src).nodes.length).map mkNodeId ∧
    ((parse_mermaid_flowchart src).nodes.map (fun p => p.2.id)).Nodup ∧
    ((parse_mermaid_flowchart src).nodes.map Prod.fst).Nodup ∧
    ∀ e ∈ (parse_mermaid_flowchart src).edges,
      e.src ∈ (parse_mermaid_flowchart src).nodes.map (fun p => p.2.id) ∧
      e.tgt ∈ (parse_mermaid_flowchart src).nodes.map (fun p => p.2.id) := by
  obtain ⟨⟨hids, hctr, hnd⟩, href⟩ :=
    flowFold_idSpec (splitLines (pyStrip src)) flowInit flowIdSpec_init
  refine ⟨hids, ?_, hnd, href⟩
  show (List.map (fun p => p.2.id)
    (List.foldl flowStep flowInit (splitLines (pyStrip src))).nodes).Nodup
  rw [hids]
  exact (List.nodup_range' 1 _).map mkNodeId_injective

/-! ## Claim C8: extractors drop blank and unrecognized lines -/

/-- C8: each of the four extractors is a total function of its line-loop
state, a line recognized by none of an extractor's branch tests leaves
that extractor's state unchanged (no node, no edge, no raised error), and
every extractor ignores blank lines outright. -/
theorem C8_extractors_drop_unrecognized (raw : Str) (fst : FlowSt) (sst : SeqSt)
    (est : ERSt) (tst : StateSt)
    (hfh : (strBegins (pyStrip raw) "graph".data ||
      strBegins (pyStrip raw) "flowchart".data) = false)
    (hfe : searchEL (pyStrip raw) = none)
    (hfa : searchArrow (pyStrip raw) = none)
    (hfs : searchStandalone (pyStrip raw) = none)
    (hsp : strBegins (pyStrip raw) "participant".data = false)
    (hsc : strBegins (pyStrip raw) "actor".data = false)
    (hsm : searchSeqMsg (pyStrip raw) = none)
    (heb : est.inBlock = false)
    (hebr : strEnds (pyStrip raw) "\x7b".data = false)
    (hecl : pyStrip raw ≠ "\x7d".data)
    (hbad : erBadName (pyStrip raw) = true)
    (her : searchERRel (pyStrip raw) = none)
    (hts : searchState (pyStrip raw) = none) :
    (flowStep fst raw = fst ∧ seqStep sst raw = sst ∧
      erStep est raw = est ∧ stateStep tst raw = tst) ∧
    (∀ (raw2 : Str) (fst2 : FlowSt) (sst2 : SeqSt) (est2 : ERSt) (tst2 : StateSt),
      pyStrip raw2 = [] →
      flowStep fst2 raw2 = fst2 ∧ seqStep sst2 raw2 = sst2 ∧
        erStep est2 raw2 = est2 ∧ stateStep tst2 raw2 = tst2) := by
  constructor
  · refine ⟨?_, ?_, ?_, ?_⟩
    · unfold flowStep
      dsimp only
      rw [hfh]
      rw [if_neg Bool.false_ne_true]
      by_cases hb : pyStrip raw = []
      · rw [if_pos hb]
      · rw [if_neg hb, hfe]
        dsimp only
        rw [hfa]
        dsimp only
        rw [hfs]
    · unfold seqStep
      dsimp only
      by_cases hb1 : (decide (pyStrip raw = []) ||
          strBegins (pyStrip raw) "sequenceDiagram".data) = true
      · rw [if_pos hb1]
      · rw [if_neg hb1, hsp, hsc, Bool.or_self]
        rw [if_neg Bool.false_ne_true]
        by_cases hg : seqArrowGuard (pyStrip raw) = true
        · rw [if_pos hg, hsm]
        · rw [if_neg hg]
    · unfold erStep
      dsimp only
      by_cases hb1 : (decide (pyStrip raw = []) ||
          strBegins (pyStrip raw) "erDiagram".data) = true
      · rw [if_pos hb1]
      · rw [if_neg hb1, hebr]
        rw [if_neg Bool.false_ne_true]
        rw [if_neg hecl]
        rw [heb, Bool.false_and]
        rw [if_neg Bool.false_ne_true]
        by_cases hb5 : (!false && decide (pyStrip raw ≠ []) &&
            erEntityGuard (pyStrip raw)) = true
        · rw [if_pos hb5]
          rw [if_neg (fun hand => Bool.noConfusion (hbad.symm.trans hand.2))]
        · rw [if_neg hb5]
          by_cases hrg : erRelGuard (pyStrip raw) = true
          · rw [if_pos hrg, her]
          · rw [if_neg hrg]
    · unfold stateStep
      dsimp only
      by_cases hb1 : (decide (pyStrip raw = []) ||
          strBegins (pyStrip raw) "stateDiagram".data) = true
      · rw [if_pos hb1]
      · rw [if_neg hb1, hts]
  · intro raw2 fst2 sst2 est2 tst2 hb
    unfold flowStep seqStep erStep stateStep
    dsimp only
    rw [hb]
    exact ⟨rfl, rfl, rfl, rfl⟩

/-- Witness for C8 on the concrete line `hello : world`, which no
extractor branch recognizes: all four initial states pass through
unchanged. -/
theorem C8_extractors_drop_unrecognized_witness :
    (flowStep flowInit "hello : world".data = flowInit ∧
      seqStep seqInit "hello : world".data = seqInit ∧
      erStep erInit "hello : world".data = erInit ∧
      stateStep stateInit "hello : world".data = stateInit) ∧
    (∀ (raw2 : Str) (fst2 : FlowSt) (sst2 : SeqSt) (est2 : ERSt) (tst2 : StateSt),
      pyStrip raw2 = [] →
      flowStep fst2 raw2 = fst2 ∧ seqStep sst2 raw2 = sst2 ∧
        erStep est2 raw2 = est2 ∧ stateStep tst2 raw2 = tst2) :=
  C8_extractors_drop_unrecognized "hello : world".data flowInit seqInit erInit stateInit
    (by decide) (by decide) (by decide) (by decide) (by decide) (by decide) (by decide)
    (by decide) (by decide) (by decide) (by decide) (by decide) (by decide)

/-! ## Claim C9: id determinism across conversions -/

/-- C9: the stateful converter's output is independent of the counter
values it starts with — `reset_counters` at the top of the conversion
discards them — so converting the same source twice (in particular the
second time from the counter state the first run left behind) yields the
identical page, hence identical node and edge ids. -/
theorem C9_conversion_id_determinism (ctrs1 ctrs2 : Nat × Nat) (src name : Str) :
    convert_with_state ctrs1 src name = convert_with_state ctrs2 src name ∧
    (convert_with_state ((convert_with_state ctrs1 src name).2) src name).1 =
      (convert_with_state ctrs1 src name).1 :=
  ⟨rfl, rfl⟩

/-! ## Claim C10: combined multi-file output -/

/-- Appending a fresh record whose id is the current counter value keeps
the generic node-id bookkeeping. -/
theorem idsSpec_snoc {α : Type} {f : α → Str} {l : List (Str × α)} {ctr : Nat}
    (h : idsSpec f l ctr) (k : Str) (v : α) (hv : f v = mkNodeId ctr) :
    idsSpec f (l ++ [(k, v)]) (ctr + 1) := by
  obtain ⟨hids, hctr⟩ := h
  have hv' : f (k, v).2 = mkNodeId ctr := hv
  constructor
  · rw [List.map_append, List.map_singleton, List.length_append, List.length_singleton,
      hids, hv', hctr, range1_concat, List.map_append, List.map_singleton]
  · rw [List.length_append, List.length_singleton, hctr]

/-- Overwriting an existing record in place with one of the same id keeps
the generic node-id bookkeeping. -/
theorem idsSpec_alSet {α : Type} {f : α → Str} {l : List (Str × α)} {ctr : Nat}
    {k : Str} {r : α} (v : α) (h : idsSpec f l ctr) (hg : alGet l k = some r)
    (hf : f v = f r) : idsSpec f (alSet l k v) ctr := by
  obtain ⟨hids, hctr⟩ := h
  have hf' : (fun p : Str × α => f p.2) (k, v) = (fun p : Str × α => f p.2) (k, r) := hf
  have hmap : (alSet l k v).map (fun p => f p.2) = l.map (fun p => f p.2) :=
    map_alSet_of_get _ _ hg hf'
  have hlen : (alSet l k v).length = l.length := by
    have h2 := congrArg List.length hmap
    rwa [List.length_map, List.length_map] at h2
  constructor
  · rw [hmap, hlen]
    exact hids
  · rw [hlen]
    exact hctr

/-- Appending an attribute to an entity record keeps the node-id
bookkeeping: the record's id is untouched. -/
theorem idsSpec_entAppend {l : List (Str × EntRec)} {ctr : Nat} (k attr : Str)
    (h : idsSpec EntRec.id l ctr) :
    idsSpec EntRec.id (entAppendAttr l k attr) ctr := by
  unfold entAppendAttr
  cases hg : alGet l k with
  | none => exact h
  | some r => exact idsSpec_alSet _ h hg rfl

/-- Appending a fresh edge whose id is the current counter value keeps
the edge-id bookkeeping. -/
theorem edgeIdsSpec_snoc {es : List EdgeRec} {ctr : Nat} (h : edgeIdsSpec es ctr)
    (e : EdgeRec) (he : e.id = mkEdgeId ctr) : edgeIdsSpec (es ++ [e]) (ctr + 1) := by
  obtain ⟨hids, hctr⟩ := h
  constructor
  · rw [List.map_append, List.map_singleton, List.length_append, List.length_singleton,
      hids, he, hctr, range1_concat, List.map_append, List.map_singleton]
  · rw [List.length_append, List.length_singleton, hctr]

/-- One sequence-extractor iteration keeps both id bookkeepings. -/
theorem seqStep_ids (st : SeqSt) (raw : Str)
    (h1 : idsSpec PartRec.id st.parts st.nodeCtr)
    (h2 : edgeIdsSpec st.msgs st.edgeCtr) :
    idsSpec PartRec.id (seqStep st raw).parts (seqStep st raw).nodeCtr ∧
    edgeIdsSpec (seqStep st raw).msgs (seqStep st raw).edgeCtr := by
  unfold seqStep
  dsimp only
  repeat' split
  all_goals first
    | exact ⟨h1, h2⟩
    | exact ⟨idsSpec_snoc h1 _ _ rfl, h2⟩
    | exact ⟨h1, edgeIdsSpec_snoc h2 _ rfl⟩
    | exact ⟨idsSpec_snoc h1 _ _ rfl, edgeIdsSpec_snoc h2 _ rfl⟩
    | exact ⟨idsSpec_snoc (idsSpec_snoc h1 _ _ rfl) _ _ rfl, edgeIdsSpec_snoc h2 _ rfl⟩

/-- One ER-extractor iteration keeps both id bookkeepings. -/
theorem erStep_ids (st : ERSt) (raw : Str)
    (h1 : idsSpec EntRec.id st.ents st.nodeCtr)
    (h2 : edgeIdsSpec st.rels st.edgeCtr) :
    idsSpec EntRec.id (erStep st raw).ents (erStep st raw).nodeCtr ∧
    edgeIdsSpec (erStep st raw).rels (erStep st raw).edgeCtr := by
  unfold erStep
  dsimp only
  repeat' split
  all_goals first
    | exact ⟨h1, h2⟩
    | exact ⟨idsSpec_snoc h1 _ _ rfl, h2⟩
    | exact ⟨idsSpec_entAppend _ _ h1, h2⟩
    | exact ⟨h1, edgeIdsSpec_snoc h2 _ rfl⟩
    | exact ⟨idsSpec_snoc h1 _ _ rfl, edgeIdsSpec_snoc h2 _ rfl⟩
    | exact ⟨idsSpec_snoc (idsSpec_snoc h1 _ _ rfl) _ _ rfl, edgeIdsSpec_snoc h2 _ rfl⟩

/-- One state-extractor iteration keeps both id bookkeepings. -/
theorem stateStep_ids (st : StateSt) (raw : Str)
    (h1 : idsSpec PartRec.id st.sts st.nodeCtr)
    (h2 : edgeIdsSpec st.trans st.edgeCtr) :
    idsSpec PartRec.id (stateStep st raw).sts (stateStep st raw).nodeCtr ∧
    edgeIdsSpec (stateStep st raw).trans (stateStep st raw).edgeCtr := by
  unfold stateStep
  dsimp only
  repeat' split
  all_goals first
    | exact ⟨h1, h2⟩
    | exact ⟨idsSpec_snoc h1 _ _ rfl, h2⟩
    | exact ⟨h1, edgeIdsSpec_snoc h2 _ rfl⟩
    | exact ⟨idsSpec_snoc h1 _ _ rfl, edgeIdsSpec_snoc h2 _ rfl⟩
    | exact ⟨idsSpec_snoc (idsSpec_snoc h1 _ _ rfl) _ _ rfl, edgeIdsSpec_snoc h2 _ rfl⟩

/-- One flowchart-extractor iteration keeps the edge-id bookkeeping. -/
theorem flowStep_edgeIds (st : FlowSt) (raw : Str)
    (h : edgeIdsSpec st.edges st.edgeCtr) :
    edgeIdsSpec (flowStep st raw).edges (flowStep st raw).edgeCtr := by
  unfold flowStep registerFlowNode
  dsimp only
  repeat' split
  all_goals first
    | exact h
    | exact edgeIdsSpec_snoc h _ rfl

/-- Both id bookkeepings hold of every sequence extraction. -/
theorem parse_seq_ids (src : Str) :
    idsSpec PartRec.id (parse_mermaid_sequence src).parts
      (parse_mermaid_sequence src).nodeCtr ∧
    edgeIdsSpec (parse_mermaid_sequence src).msgs (parse_mermaid_sequence src).edgeCtr := by
  show idsSpec PartRec.id ((splitLines (pyStrip src)).foldl seqStep seqInit).parts
      ((splitLines (pyStrip src)).foldl seqStep seqInit).nodeCtr ∧
    edgeIdsSpec ((splitLines (pyStrip src)).foldl seqStep seqInit).msgs
      ((splitLines (pyStrip src)).foldl seqStep seqInit).edgeCtr
  generalize splitLines (pyStrip src) = lines
  have h : ∀ (ls : List Str) (st : SeqSt),
      idsSpec PartRec.id st.parts st.nodeCtr → edgeIdsSpec st.msgs st.edgeCtr →
      idsSpec PartRec.id (ls.foldl seqStep st).parts (ls.foldl seqStep st).nodeCtr ∧
        edgeIdsSpec (ls.foldl seqStep st).msgs (ls.foldl seqStep st).edgeCtr := by
    intro ls
    induction ls with
    | nil => exact fun st ha hb => ⟨ha, hb⟩
    | cons l t ih =>
      intro st ha hb
      obtain ⟨ha2, hb2⟩ := seqStep_ids st l ha hb
      exact ih _ ha2 hb2
  exact h lines seqInit ⟨rfl, rfl⟩ ⟨rfl, rfl⟩

/-- Both id bookkeepings hold of every ER extraction. -/
theorem parse_er_ids (src : Str) :
    idsSpec EntRec.id (parse_mermaid_er src).ents (parse_mermaid_er src).nodeCtr ∧
    edgeIdsSpec (parse_mermaid_er src).rels (parse_mermaid_er src).edgeCtr := by
  show idsSpec EntRec.id ((splitLines (pyStrip src)).foldl erStep erInit).ents
      ((splitLines (pyStrip src)).foldl erStep erInit).nodeCtr ∧
    edgeIdsSpec ((splitLines (pyStrip src)).foldl erStep erInit).rels
      ((splitLines (pyStrip src)).foldl erStep erInit).edgeCtr
  generalize splitLines (pyStrip src) = lines
  have h : ∀ (ls : List Str) (st : ERSt),
      idsSpec EntRec.id st.ents st.nodeCtr → edgeIdsSpec st.rels st.edgeCtr →
      idsSpec EntRec.id (ls.foldl erStep st).ents (ls.foldl erStep st).nodeCtr ∧
        edgeIdsSpec (ls.foldl erStep st).rels (ls.foldl erStep st).edgeCtr := by
    intro ls
    induction ls with
    | nil => exact fun st ha hb => ⟨ha, hb⟩
    | cons l t ih =>
      intro st ha hb
      obtain ⟨ha2, hb2⟩ := erStep_ids st l ha hb
      exact ih _ ha2 hb2
  exact h lines erInit ⟨rfl, rfl⟩ ⟨rfl, rfl⟩

/-- Both id bookkeepings hold of every state extraction. -/
theorem parse_state_ids (src : Str) :
    idsSpec PartRec.id (parse_mermaid_state src).sts (parse_mermaid_state src).nodeCtr ∧
    edgeIdsSpec (parse_mermaid_state src).trans (parse_mermaid_state src).edgeCtr := by
  show idsSpec PartRec.id ((splitLines (pyStrip src)).foldl stateStep stateInit).sts
      ((splitLines (pyStrip src)).foldl stateStep stateInit).nodeCtr ∧
    edgeIdsSpec ((splitLines (pyStrip src)).foldl stateStep stateInit).trans
      ((splitLines (pyStrip src)).foldl stateStep stateInit).edgeCtr
  generalize splitLines (pyStrip src) = lines
  have h : ∀ (ls : List Str) (st : StateSt),
      idsSpec PartRec.id st.sts st.nodeCtr → edgeIdsSpec st.trans st.edgeCtr →
      idsSpec PartRec.id (ls.foldl stateStep st).sts (ls.foldl stateStep st).nodeCtr ∧
        edgeIdsSpec (ls.foldl stateStep st).trans (ls.foldl stateStep st).edgeCtr := by
    intro ls
    induction ls with
    | nil => exact fun st ha hb => ⟨ha, hb⟩
    | cons l t ih =>
      intro st ha hb
      obtain ⟨ha2, hb2⟩ := stateStep_ids st l ha hb
      exact ih _ ha2 hb2
  exact h lines stateInit ⟨rfl, rfl⟩ ⟨rfl, rfl⟩

/-- The edge-id bookkeeping holds of every flowchart extraction. -/
theorem parse_flow_edgeIds (src : Str) :
    edgeIdsSpec (parse_mermaid_flowchart src).edges (parse_mermaid_flowchart src).edgeCtr := by
  show edgeIdsSpec ((splitLines (pyStrip src)).foldl flowStep flowInit).edges
      ((splitLines (pyStrip src)).foldl flowStep flowInit).edgeCtr
  generalize splitLines (pyStrip src) = lines
  have h : ∀ (ls : List Str) (st : FlowSt), edgeIdsSpec st.edges st.edgeCtr →
      edgeIdsSpec (ls.foldl flowStep st).edges (ls.foldl flowStep st).edgeCtr := by
    intro ls
    induction ls with
    | nil => exact fun st ha => ha
    | cons l t ih => exact fun st ha => ih _ (flowStep_edgeIds st l ha)
  exact h lines flowInit ⟨rfl, rfl⟩

/-- Every page the converter emits numbers its vertex cells `node1 …` and
its edge cells `edge1 …` in output order. -/
theorem convert_page_cell_ids (src name : Str) :
    (convert_mermaid_page src name).1.vcells.map (fun c => c.id) =
      (List.range' 1 (convert_mermaid_page src name).1.vcells.length).map mkNodeId ∧
    (convert_mermaid_page src name).1.ecells.map (fun c => c.id) =
      (List.range' 1 (convert_mermaid_page src name).1.ecells.length).map mkEdgeId := by
  unfold convert_mermaid_page
  dsimp only
  by_cases h1 : strContains src "sequenceDiagram".data = true
  · rw [if_pos h1]
    dsimp only
    constructor
    · rw [List.map_map, List.length_map]
      exact (List.map_congr_left (fun a _ => rfl)).trans (parse_seq_ids src).1.1
    · rw [List.map_map, List.length_map]
      exact (List.map_congr_left (fun a _ => rfl)).trans (parse_seq_ids src).2.1
  · rw [if_neg h1]
    by_cases h2 : strContains src "erDiagram".data = true
    · rw [if_pos h2]
      dsimp only
      constructor
      · rw [List.map_map, List.length_map]
        exact (List.map_congr_left (fun a _ => rfl)).trans (parse_er_ids src).1.1
      · rw [List.map_map, List.length_map]
        exact (List.map_congr_left (fun a _ => rfl)).trans (parse_er_ids src).2.1
    · rw [if_neg h2]
      by_cases h3 : strContains src "stateDiagram".data = true
      · rw [if_pos h3]
        dsimp only
        constructor
        · rw [List.map_map, List.length_map]
          exact (List.map_congr_left (fun a _ => rfl)).trans (parse_state_ids src).1.1
        · rw [List.map_map, List.length_map]
          exact (List.map_congr_left (fun a _ => rfl)).trans (parse_state_ids src).2.1
      · rw [if_neg h3]
        dsimp only
        obtain ⟨⟨hids, hctr, hnd⟩, href⟩ :=
          flowFold_idSpec (splitLines (pyStrip src)) flowInit flowIdSpec_init
        constructor
        · rw [List.map_map, List.length_map]
          exact (List.map_congr_left (fun a _ => rfl)).trans hids
        · rw [List.map_map, List.length_map]
          exact (List.map_congr_left (fun a _ => rfl)).trans (parse_flow_edgeIds src).1

/-- Indexing a list by enumeration and reading back the indices is the
same as ranging over its length. -/
theorem enum_map_val {α β : Type} (g : Nat → β) (l : List α) :
    l.enum.map (fun p => g p.1) = (List.range l.length).map g := by
  rw [← List.enum_map_fst l, List.map_map]
  exact List.map_congr_left (fun a _ => rfl)

/-- Shifting `range` by one gives `range'` from 1, under any image. -/
theorem range_map_succ_diagram (n : Nat) :
    (List.range n).map (fun i => mkDiagramId (i + 1)) =
      (List.range' 1 n).map mkDiagramId := by
  rw [List.range'_eq_map_range, List.map_map]
  exact List.map_congr_left (fun a _ => by
    show mkDiagramId (a + 1) = mkDiagramId (1 + a)
    rw [Nat.add_comm])

/-- C10: combined conversion of `k` sources yields exactly `k` pages whose
ids are `diagram1 … diagramk` in input order, and every page's vertex
cells carry the per-page ids `node1 … nodeN` (and edge cells
`edge1 … edgeE`): each page's id namespace is reset independently. -/
theorem C10_combined_pages (files : List (Str × Str)) :
    (convert_multiple_files files).length = files.length ∧
    (convert_multiple_files files).map (fun p => p.id) =
      (List.range' 1 files.length).map mkDiagramId ∧
    ∀ pg ∈ convert_multiple_files files,
      pg.vcells.map (fun c => c.id) =
        (List.range' 1 pg.vcells.length).map mkNodeId ∧
      pg.ecells.map (fun c => c.id) =
        (List.range' 1 pg.ecells.length).map mkEdgeId := by
  refine ⟨?_, ?_, ?_⟩
  · unfold convert_multiple_files
    rw [List.length_map]
    exact List.enum_length
  · unfold convert_multiple_files
    rw [List.map_map]
    exact (List.map_congr_left (fun a _ => rfl)).trans
      ((enum_map_val (fun i => mkDiagramId (i + 1)) files).trans
        (range_map_succ_diagram files.length))
  · intro pg hpg
    unfold convert_multiple_files at hpg
    obtain ⟨p, hp, rfl⟩ := List.mem_map.mp hpg
    exact convert_page_cell_ids p.2.2 p.2.1

end MmdDrawio
